import Mathlib

/-!
Fixed-size numeric containers (`data::Vector`, `data::Matrix`)

A shallow embedding of `src/data/vector.hpp` and `src/data/matrix.hpp`.

* A container is its inline storage: a list of elements whose length is the
  compile-time shape (`SIZE`, or `ROWS * COLS` in row-major order).
* The element type is any type with the four arithmetic functors and the two
  conversions from and to C++ `int`.  C++ integer element types are modelled by
  `Int` (exact integers, division truncating toward zero), fractional element
  types by `ℚ` (exact fractions, conversion to `int` truncating toward zero).
  Where the fixed width of `int` matters, the element type is `CInt`: 32-bit
  two's-complement integers whose arithmetic wraps around.
* Unchecked indexing (`std::array::operator[]`) is modelled by `Option`: an
  index outside the storage gives `none`.
-/

namespace data

/-! ## Element types -/

/-- The operations the containers use on their element type `TYPE`:
`std::plus<TYPE>`, `std::minus<TYPE>`, `std::multiplies<TYPE>`,
`std::divides<TYPE>`, the conversion of an `int` to `TYPE` and the conversion
of a `TYPE` to `int`. -/
class Scalar (TYPE : Type) where
  plus : TYPE → TYPE → TYPE
  minus : TYPE → TYPE → TYPE
  multiplies : TYPE → TYPE → TYPE
  divides : TYPE → TYPE → TYPE
  fromInt : Int → TYPE
  toInt : TYPE → Int

/-- Integer element types, as exact integers: `/` truncates toward zero and the
conversions from and to `int` change nothing.  (Division by zero is outside the
model: `Int.tdiv x 0 = 0`.) -/
instance instScalarInt : Scalar Int where
  plus := fun x y => x + y
  minus := fun x y => x - y
  multiplies := fun x y => x * y
  divides := fun x y => Int.tdiv x y
  fromInt := fun n => n
  toInt := fun x => x

/-- Fractional element types, as exact fractions: an `int` converts to the same
number, and a fraction converts to `int` by discarding its fractional part
(truncation toward zero). -/
instance instScalarRat : Scalar ℚ where
  plus := fun x y => x + y
  minus := fun x y => x - y
  multiplies := fun x y => x * y
  divides := fun x y => x / y
  fromInt := fun n => (n : ℚ)
  toInt := fun x => Int.tdiv x.num (x.den : Int)

/-- The least value of a 32-bit `int`. -/
def INT_MIN : Int := -2147483648

/-- The greatest value of a 32-bit `int`. -/
def INT_MAX : Int := 2147483647

/-- Two's-complement wrap-around of an exact integer into the range of a 32-bit
`int`: the result differs from the argument by a multiple of 2^32. -/
def wrap32 (x : Int) : Int :=
  (x + 2147483648) % 4294967296 - 2147483648

theorem wrap32_range (x : Int) : INT_MIN ≤ wrap32 x ∧ wrap32 x ≤ INT_MAX := by
  unfold wrap32 INT_MIN INT_MAX
  omega

/-- The element type `int` at its fixed width: an integer between `INT_MIN` and
`INT_MAX`. -/
structure CInt where
  val : Int
  range : INT_MIN ≤ val ∧ val ≤ INT_MAX
deriving DecidableEq

/-- The arithmetic of `int` at its fixed width: each result is the exact result
wrapped around into 32 bits, which is what the machine instructions produce
when a signed operation overflows; `/` truncates toward zero.  (Division by zero
is outside the model: `Int.tdiv x 0 = 0`.) -/
instance instScalarCInt : Scalar CInt where
  plus := fun x y => ⟨wrap32 (x.val + y.val), wrap32_range _⟩
  minus := fun x y => ⟨wrap32 (x.val - y.val), wrap32_range _⟩
  multiplies := fun x y => ⟨wrap32 (x.val * y.val), wrap32_range _⟩
  divides := fun x y => ⟨wrap32 (Int.tdiv x.val y.val), wrap32_range _⟩
  fromInt := fun n => ⟨wrap32 n, wrap32_range _⟩
  toInt := fun x => x.val

/-- A class element type, `struct Cell { int value; };`: unlike a built-in
type, a temporary of class type can be the target of an assignment. -/
structure Cell where
  value : Int
deriving DecidableEq

/-- What a call of an accessor gives its caller: an accessor whose return type
is a reference (`auto&`, `TYPE&`) gives the storage slot it refers to, an
accessor whose return type is `auto` gives a temporary copy of the element. -/
inductive Access (TYPE : Type) where
  | slot (index : Nat)
  | temporary (value : TYPE)
deriving DecidableEq

/-! ## The standard algorithms used by the containers -/

section Algorithms

variable {TYPE : Type}

/-- `std::transform(first1, last1, first2, d_first, op)`: walks the first input
range, the second input range and the destination in step, writing
`op(x, y)`; what is left of the destination past the input stays as it was.
The result is the destination's new contents. -/
def transform (op : TYPE → TYPE → TYPE) : List TYPE → List TYPE → List TYPE → List TYPE
  | x :: xs, y :: ys, _ :: ds => op x y :: transform op xs ys ds
  | _, _, ds => ds

/-- `array.fill(val)`: every element of the storage becomes `val`. -/
def fill (storage : List TYPE) (val : TYPE) : List TYPE :=
  storage.map fun _ => val

/-- `std::equal(first1, last1, first2)`: the two ranges agree element by
element (`==` of the element type). -/
def equal [DecidableEq TYPE] : List TYPE → List TYPE → Bool
  | x :: xs, y :: ys => decide (x = y) && equal xs ys
  | [], _ => true
  | _ :: _, [] => false

/-- `std::all_of(first, last, p)`. -/
def all_of (p : TYPE → Bool) : List TYPE → Bool
  | [] => true
  | x :: xs => p x && all_of p xs

/-- `std::accumulate(first, last, 0)`: the initial value is the `int` literal
`0`, so the accumulator is an `int`; each step computes `acc + *first` (the
`int` converted to the element type) and stores it back into the `int`. -/
def accumulate [Scalar TYPE] : List TYPE → Int → Int
  | [], acc => acc
  | x :: xs, acc => accumulate xs (Scalar.toInt (Scalar.plus (Scalar.fromInt acc) x))

/-- `std::inner_product(first1, last1, first2, 0)`: the initial value is the
`int` literal `0`, so the accumulator is an `int`; each step computes
`acc + (*first1) * (*first2)` and stores it back into the `int`. -/
def inner_product [Scalar TYPE] : List TYPE → List TYPE → Int → Int
  | x :: xs, y :: ys, acc =>
      inner_product xs ys
        (Scalar.toInt (Scalar.plus (Scalar.fromInt acc) (Scalar.multiplies x y)))
  | _, _, acc => acc

/-- `std::copy(first, last, d_first)`, also the loop `*it++ = arg` of the
variadic constructors: walks the source and the destination in step, writing
each source element; what is left of the destination stays as it was.  The
result is the destination's new contents. -/
def copy : List TYPE → List TYPE → List TYPE
  | x :: xs, _ :: ds => x :: copy xs ds
  | _, ds => ds

theorem length_transform (op : TYPE → TYPE → TYPE) :
    ∀ xs ys ds : List TYPE, (transform op xs ys ds).length = ds.length
  | [], _, _ => by simp [transform]
  | _ :: _, [], _ => by simp [transform]
  | _ :: _, _ :: _, [] => by simp [transform]
  | _ :: xs, _ :: ys, _ :: ds => by simp [transform, length_transform op xs ys ds]

theorem length_fill (storage : List TYPE) (val : TYPE) :
    (fill storage val).length = storage.length := by
  simp [fill]

theorem length_copy : ∀ xs ds : List TYPE, (copy xs ds).length = ds.length
  | [], _ => by simp [copy]
  | _ :: _, [] => by simp [copy]
  | _ :: xs, _ :: ds => by simp [copy, length_copy xs ds]

end Algorithms

/-! ## `Vector<TYPE, SIZE>` -/

/-- `Vector<TYPE, SIZE>`: a `std::array<TYPE, SIZE>`.  The variadic constructor
`Vector(args...)`, which takes exactly `SIZE` values, is the structure's
constructor. -/
structure Vector (TYPE : Type) (SIZE : Nat) where
  elems : List TYPE
  size_eq : elems.length = SIZE
deriving DecidableEq

namespace Vector

variable {TYPE : Type} {SIZE : Nat}

/-- `Vector()`: the value-initialised array, every element zero. -/
def default [Scalar TYPE] : Vector TYPE SIZE :=
  ⟨List.replicate SIZE (Scalar.fromInt 0), by simp⟩

/-- `operator[]` inherited from `std::array`, unchecked in the source: `none`
stands for an access outside the storage. -/
def get? (self : Vector TYPE SIZE) (index : Nat) : Option TYPE :=
  self.elems[index]?

/-- `arithmetic_operation(const Vector&, Function)`. -/
def arithmetic_operation [Scalar TYPE] (self other : Vector TYPE SIZE)
    (op : TYPE → TYPE → TYPE) : Vector TYPE SIZE :=
  let result : Vector TYPE SIZE := default
  ⟨transform op self.elems other.elems result.elems, by
    rw [length_transform]; exact result.size_eq⟩

/-- `arithmetic_operation(const TYPE, Function)`. -/
def arithmetic_operation_val [Scalar TYPE] (self : Vector TYPE SIZE) (val : TYPE)
    (op : TYPE → TYPE → TYPE) : Vector TYPE SIZE :=
  let result : Vector TYPE SIZE := default
  let filled : List TYPE := fill result.elems val
  ⟨transform op self.elems filled filled, by
    rw [length_transform, length_fill]; exact result.size_eq⟩

/-- `operator+(const Vector&)`. -/
def operator_plus [Scalar TYPE] (self other : Vector TYPE SIZE) : Vector TYPE SIZE :=
  self.arithmetic_operation other Scalar.plus

/-- `operator-(const Vector&)`. -/
def operator_minus [Scalar TYPE] (self other : Vector TYPE SIZE) : Vector TYPE SIZE :=
  self.arithmetic_operation other Scalar.minus

/-- `operator*(const Vector&)`. -/
def operator_multiplies [Scalar TYPE] (self other : Vector TYPE SIZE) : Vector TYPE SIZE :=
  self.arithmetic_operation other Scalar.multiplies

/-- `operator/(const Vector&)`. -/
def operator_divides [Scalar TYPE] (self other : Vector TYPE SIZE) : Vector TYPE SIZE :=
  self.arithmetic_operation other Scalar.divides

/-- `operator+(const TYPE)`. -/
def operator_plus_val [Scalar TYPE] (self : Vector TYPE SIZE) (val : TYPE) : Vector TYPE SIZE :=
  self.arithmetic_operation_val val Scalar.plus

/-- `operator-(const TYPE)`. -/
def operator_minus_val [Scalar TYPE] (self : Vector TYPE SIZE) (val : TYPE) : Vector TYPE SIZE :=
  self.arithmetic_operation_val val Scalar.minus

/-- `operator*(const TYPE)`. -/
def operator_multiplies_val [Scalar TYPE] (self : Vector TYPE SIZE) (val : TYPE) :
    Vector TYPE SIZE :=
  self.arithmetic_operation_val val Scalar.multiplies

/-- `operator/(const TYPE)`. -/
def operator_divides_val [Scalar TYPE] (self : Vector TYPE SIZE) (val : TYPE) :
    Vector TYPE SIZE :=
  self.arithmetic_operation_val val Scalar.divides

/-- `operator==(const Vector&)`. -/
def operator_eq [DecidableEq TYPE] (self other : Vector TYPE SIZE) : Bool :=
  equal self.elems other.elems

/-- `operator!=(const Vector&)`. -/
def operator_ne [DecidableEq TYPE] (self other : Vector TYPE SIZE) : Bool :=
  !(self.operator_eq other)

/-- `operator==(const TYPE)`. -/
def operator_eq_val [DecidableEq TYPE] (self : Vector TYPE SIZE) (val : TYPE) : Bool :=
  all_of (fun x => decide (x = val)) self.elems

/-- `operator!=(const TYPE)`. -/
def operator_ne_val [DecidableEq TYPE] (self : Vector TYPE SIZE) (val : TYPE) : Bool :=
  !(self.operator_eq_val val)

/-- `operator()(size_t index)`: both the `const` and the non-`const` overload
are declared `auto` and return `(*this)[index]` by value, a copy of the
element. -/
def operator_call (self : Vector TYPE SIZE) (index : Nat) : Option TYPE :=
  self.get? index

/-- The non-`const` overload `auto operator()(size_t index)` as the caller of
an assignment sees it: the declared return type `auto` is the element type, not
a reference, so the call gives a temporary copy of `(*this)[index]`. -/
def operator_call_mut (self : Vector TYPE SIZE) (index : Nat) : Option (Access TYPE) :=
  (self.get? index).map Access.temporary

/-- The non-`const` `operator[]` inherited from `std::array`, whose return type
is `TYPE&`: the call gives the storage slot `index` (unchecked in the source,
`none` outside the storage). -/
def operator_index_mut (self : Vector TYPE SIZE) (index : Nat) : Option (Access TYPE) :=
  if index < self.elems.length then some (Access.slot index) else none

/-- The vector after the caller's assignment `target = x`, where `target` is
what an accessor of this vector returned and the element type is a class type:
through a reference the storage slot is written; a temporary takes the value
itself and the storage is not written.  (For a built-in element type an
assignment to a temporary is ill-formed, so no program runs it.) -/
def assign_through (self : Vector TYPE SIZE) (target : Access TYPE) (x : TYPE) :
    Vector TYPE SIZE :=
  match target with
  | Access.slot index => ⟨self.elems.set index x, by rw [List.length_set]; exact self.size_eq⟩
  | Access.temporary _ => self

/-- The vector after `operator=(const Vector& other)`:
`std::copy(other.begin(), other.end(), this->begin())`. -/
def operator_assign (self other : Vector TYPE SIZE) : Vector TYPE SIZE :=
  ⟨copy other.elems self.elems, by rw [length_copy]; exact self.size_eq⟩

/-- `operator+=(const Vector&)`: `*this = *this + other; return *this;`.  The
value is the vector after the call, which is also the object the returned
reference designates. -/
def operator_plus_assign [Scalar TYPE] (self other : Vector TYPE SIZE) : Vector TYPE SIZE :=
  self.operator_assign (self.operator_plus other)

/-- `operator-=(const Vector&)`. -/
def operator_minus_assign [Scalar TYPE] (self other : Vector TYPE SIZE) : Vector TYPE SIZE :=
  self.operator_assign (self.operator_minus other)

/-- `operator*=(const Vector&)`. -/
def operator_multiplies_assign [Scalar TYPE] (self other : Vector TYPE SIZE) :
    Vector TYPE SIZE :=
  self.operator_assign (self.operator_multiplies other)

/-- `operator/=(const Vector&)`. -/
def operator_divides_assign [Scalar TYPE] (self other : Vector TYPE SIZE) :
    Vector TYPE SIZE :=
  self.operator_assign (self.operator_divides other)

/-- `operator+=(const TYPE)`: `*this = *this + val; return *this;`. -/
def operator_plus_assign_val [Scalar TYPE] (self : Vector TYPE SIZE) (val : TYPE) :
    Vector TYPE SIZE :=
  self.operator_assign (self.operator_plus_val val)

/-- `operator-=(const TYPE)`. -/
def operator_minus_assign_val [Scalar TYPE] (self : Vector TYPE SIZE) (val : TYPE) :
    Vector TYPE SIZE :=
  self.operator_assign (self.operator_minus_val val)

/-- `operator*=(const TYPE)`. -/
def operator_multiplies_assign_val [Scalar TYPE] (self : Vector TYPE SIZE) (val : TYPE) :
    Vector TYPE SIZE :=
  self.operator_assign (self.operator_multiplies_val val)

/-- `operator/=(const TYPE)`. -/
def operator_divides_assign_val [Scalar TYPE] (self : Vector TYPE SIZE) (val : TYPE) :
    Vector TYPE SIZE :=
  self.operator_assign (self.operator_divides_val val)

/-- Unary `operator-()`: `*this * -1`, the `int` literal `-1` converted to the
element type. -/
def operator_neg [Scalar TYPE] (self : Vector TYPE SIZE) : Vector TYPE SIZE :=
  self.operator_multiplies_val (Scalar.fromInt (-1))

/-- `sum()`: the `int` result of `std::accumulate` converted to `TYPE`. -/
def sum [Scalar TYPE] (self : Vector TYPE SIZE) : TYPE :=
  Scalar.fromInt (accumulate self.elems 0)

/-- `dot(other)`: the `int` result of `std::inner_product` converted to `TYPE`. -/
def dot [Scalar TYPE] (self other : Vector TYPE SIZE) : TYPE :=
  Scalar.fromInt (inner_product self.elems other.elems 0)

/-- `length()`: `std::sqrt(dot(*this))`.  The library function `std::sqrt` on
the element type is the parameter `sqrt`. -/
def length [Scalar TYPE] (sqrt : TYPE → TYPE) (self : Vector TYPE SIZE) : TYPE :=
  sqrt (self.dot self)

/-- `normalised()`: `*this / this->length()`. -/
def normalised [Scalar TYPE] (sqrt : TYPE → TYPE) (self : Vector TYPE SIZE) :
    Vector TYPE SIZE :=
  self.operator_divides_val (self.length sqrt)

/-- `normalise()`: `*this /= this->length(); return *this;`. -/
def normalise [Scalar TYPE] (sqrt : TYPE → TYPE) (self : Vector TYPE SIZE) :
    Vector TYPE SIZE :=
  self.operator_divides_assign_val (self.length sqrt)

end Vector

/-! ## `Matrix<TYPE, ROWS, COLS>` -/

/-- `Matrix<TYPE, ROWS, COLS>`: a `std::array<TYPE, ROWS * COLS>`.  The variadic
constructor `Matrix(args...)`, which takes exactly `ROWS * COLS` values and
stores them in the order given, is the structure's constructor. -/
structure Matrix (TYPE : Type) (ROWS COLS : Nat) where
  elems : List TYPE
  size_eq : elems.length = ROWS * COLS
deriving DecidableEq

namespace Matrix

variable {TYPE : Type} {ROWS COLS : Nat}

/-- `Matrix()`: the value-initialised array, every element zero. -/
def default [Scalar TYPE] : Matrix TYPE ROWS COLS :=
  ⟨List.replicate (ROWS * COLS) (Scalar.fromInt 0), by simp⟩

/-- `index(i, j)` of a matrix with `COLS` columns. -/
def index (COLS : Nat) (i j : Nat) : Nat :=
  i * COLS + j

/-- `operator()(i, j) const`: reads `(*this)[index(i, j)]`, unchecked in the
source; `none` stands for an access outside the storage. -/
def get? (self : Matrix TYPE ROWS COLS) (i j : Nat) : Option TYPE :=
  self.elems[index COLS i j]?

/-- An assignment `m(i, j) = x` through the reference returned by
`operator()(i, j)`: writes `(*this)[index(i, j)]`, unchecked in the source;
`none` stands for an access outside the storage. -/
def set? (self : Matrix TYPE ROWS COLS) (i j : Nat) (x : TYPE) :
    Option (Matrix TYPE ROWS COLS) :=
  if index COLS i j < self.elems.length then
    some ⟨self.elems.set (index COLS i j) x, by rw [List.length_set]; exact self.size_eq⟩
  else none

/-- `arithmetic_operation(const Matrix&, Function)`. -/
def arithmetic_operation [Scalar TYPE] (self other : Matrix TYPE ROWS COLS)
    (op : TYPE → TYPE → TYPE) : Matrix TYPE ROWS COLS :=
  let result : Matrix TYPE ROWS COLS := default
  ⟨transform op self.elems other.elems result.elems, by
    rw [length_transform]; exact result.size_eq⟩

/-- `arithmetic_operation(const TYPE, Function)`. -/
def arithmetic_operation_val [Scalar TYPE] (self : Matrix TYPE ROWS COLS) (val : TYPE)
    (op : TYPE → TYPE → TYPE) : Matrix TYPE ROWS COLS :=
  let result : Matrix TYPE ROWS COLS := default
  let filled : List TYPE := fill result.elems val
  ⟨transform op self.elems filled filled, by
    rw [length_transform, length_fill]; exact result.size_eq⟩

/-- `operator+(const Matrix&)`. -/
def operator_plus [Scalar TYPE] (self other : Matrix TYPE ROWS COLS) : Matrix TYPE ROWS COLS :=
  self.arithmetic_operation other Scalar.plus

/-- `operator-(const Matrix&)`. -/
def operator_minus [Scalar TYPE] (self other : Matrix TYPE ROWS COLS) : Matrix TYPE ROWS COLS :=
  self.arithmetic_operation other Scalar.minus

/-- `operator*(const Matrix&)`. -/
def operator_multiplies [Scalar TYPE] (self other : Matrix TYPE ROWS COLS) :
    Matrix TYPE ROWS COLS :=
  self.arithmetic_operation other Scalar.multiplies

/-- `operator/(const Matrix&)`. -/
def operator_divides [Scalar TYPE] (self other : Matrix TYPE ROWS COLS) :
    Matrix TYPE ROWS COLS :=
  self.arithmetic_operation other Scalar.divides

/-- `operator+(const TYPE)`. -/
def operator_plus_val [Scalar TYPE] (self : Matrix TYPE ROWS COLS) (val : TYPE) :
    Matrix TYPE ROWS COLS :=
  self.arithmetic_operation_val val Scalar.plus

/-- `operator-(const TYPE)`. -/
def operator_minus_val [Scalar TYPE] (self : Matrix TYPE ROWS COLS) (val : TYPE) :
    Matrix TYPE ROWS COLS :=
  self.arithmetic_operation_val val Scalar.minus

/-- `operator*(const TYPE)`. -/
def operator_multiplies_val [Scalar TYPE] (self : Matrix TYPE ROWS COLS) (val : TYPE) :
    Matrix TYPE ROWS COLS :=
  self.arithmetic_operation_val val Scalar.multiplies

/-- `operator/(const TYPE)`. -/
def operator_divides_val [Scalar TYPE] (self : Matrix TYPE ROWS COLS) (val : TYPE) :
    Matrix TYPE ROWS COLS :=
  self.arithmetic_operation_val val Scalar.divides

/-- `Matrix(Args... args)` with exactly `ROWS * COLS` arguments: the loop
`*it_this++ = arg` writes the arguments in order over the storage, whose
contents before the loop (`uninit`) are not initialised by the constructor. -/
def construct (uninit : Matrix TYPE ROWS COLS) (args : List TYPE)
    (_count : args.length = ROWS * COLS) : Matrix TYPE ROWS COLS :=
  ⟨copy args uninit.elems, by rw [length_copy]; exact uninit.size_eq⟩

/-- The matrix after `operator=(const Matrix& other)`:
`std::copy(other.begin(), other.end(), this->begin())`. -/
def operator_assign (self other : Matrix TYPE ROWS COLS) : Matrix TYPE ROWS COLS :=
  ⟨copy other.elems self.elems, by rw [length_copy]; exact self.size_eq⟩

/-- `operator+=(const Matrix&)`: `*this = *this + other; return *this;`.  The
value is the matrix after the call, which is also the object the returned
reference designates. -/
def operator_plus_assign [Scalar TYPE] (self other : Matrix TYPE ROWS COLS) :
    Matrix TYPE ROWS COLS :=
  self.operator_assign (self.operator_plus other)

/-- `operator-=(const Matrix&)`. -/
def operator_minus_assign [Scalar TYPE] (self other : Matrix TYPE ROWS COLS) :
    Matrix TYPE ROWS COLS :=
  self.operator_assign (self.operator_minus other)

/-- `operator*=(const Matrix&)`. -/
def operator_multiplies_assign [Scalar TYPE] (self other : Matrix TYPE ROWS COLS) :
    Matrix TYPE ROWS COLS :=
  self.operator_assign (self.operator_multiplies other)

/-- `operator/=(const Matrix&)`. -/
def operator_divides_assign [Scalar TYPE] (self other : Matrix TYPE ROWS COLS) :
    Matrix TYPE ROWS COLS :=
  self.operator_assign (self.operator_divides other)

/-- `operator+=(const TYPE)`: `*this = *this + val; return *this;`. -/
def operator_plus_assign_val [Scalar TYPE] (self : Matrix TYPE ROWS COLS) (val : TYPE) :
    Matrix TYPE ROWS COLS :=
  self.operator_assign (self.operator_plus_val val)

/-- `operator-=(const TYPE)`. -/
def operator_minus_assign_val [Scalar TYPE] (self : Matrix TYPE ROWS COLS) (val : TYPE) :
    Matrix TYPE ROWS COLS :=
  self.operator_assign (self.operator_minus_val val)

/-- `operator*=(const TYPE)`. -/
def operator_multiplies_assign_val [Scalar TYPE] (self : Matrix TYPE ROWS COLS) (val : TYPE) :
    Matrix TYPE ROWS COLS :=
  self.operator_assign (self.operator_multiplies_val val)

/-- `operator/=(const TYPE)`. -/
def operator_divides_assign_val [Scalar TYPE] (self : Matrix TYPE ROWS COLS) (val : TYPE) :
    Matrix TYPE ROWS COLS :=
  self.operator_assign (self.operator_divides_val val)

/-- `transposed()`: starting from a default-constructed `COLS`×`ROWS` matrix,
the two nested loops assign `result(j, i) = (*this)(i, j)`. -/
def transposed [Scalar TYPE] (self : Matrix TYPE ROWS COLS) : Option (Matrix TYPE COLS ROWS) :=
  (List.range ROWS).foldlM
    (fun result i =>
      (List.range COLS).foldlM
        (fun result j => (self.get? i j).bind fun x => result.set? j i x)
        result)
    default

/-- `identity()` (`static_assert(ROWS == COLS)`): starting from a
default-constructed matrix, the loop assigns `result(i, i) = 1`. -/
def identity [Scalar TYPE] {ROWS : Nat} : Option (Matrix TYPE ROWS ROWS) :=
  (List.range ROWS).foldlM (fun result i => result.set? i i (Scalar.fromInt 1)) default

/-- `transpose()`: `*this = transposed(); return *this;`.  The assignment
type-checks only when the transposed shape is the matrix's own shape, that is
for a square matrix.  The value is the matrix after the call, which is also the
object the returned reference designates. -/
def transpose [Scalar TYPE] {ROWS : Nat} (self : Matrix TYPE ROWS ROWS) :
    Option (Matrix TYPE ROWS ROWS) :=
  self.transposed.map fun t => self.operator_assign t

end Matrix

/-! ## The sums of the specification -/

section SpecSums

variable {TYPE : Type}

/-- The sum the specification gives for `sum()`: `xs[0] + xs[1] + ... + xs[N-1]`
computed in `TYPE`, starting from the additive identity 0. -/
def sum_spec [Scalar TYPE] (xs : List TYPE) : TYPE :=
  xs.foldl Scalar.plus (Scalar.fromInt 0)

/-- The sum the specification gives for `dot(other)`:
`xs[0]*ys[0] + ... + xs[N-1]*ys[N-1]` computed in `TYPE`, starting from 0. -/
def dot_spec [Scalar TYPE] (xs ys : List TYPE) : TYPE :=
  (List.zipWith Scalar.multiplies xs ys).foldl Scalar.plus (Scalar.fromInt 0)

end SpecSums

/-! ## Sample values -/

/-- `vec1` of `main`, the vector (2, 2, 2), with a fractional element type. -/
def vec1 : Vector ℚ 3 := ⟨[2, 2, 2], rfl⟩

/-- `vec2` of `main`, the vector (3, 3, 3), with a fractional element type. -/
def vec2 : Vector ℚ 3 := ⟨[3, 3, 3], rfl⟩

/-- The vector (2, 2, 2) with an integer element type. -/
def ivec1 : Vector Int 3 := ⟨[2, 2, 2], rfl⟩

/-- The vector (3, 3, 3) with an integer element type. -/
def ivec2 : Vector Int 3 := ⟨[3, 3, 3], rfl⟩

/-- The vector (0.5, 0.5) with a fractional element type. -/
def half2 : Vector ℚ 2 := ⟨[1 / 2, 1 / 2], rfl⟩

/-- The vector (0.5, 0.5, 0.5, 0.5) with a fractional element type. -/
def half4 : Vector ℚ 4 := ⟨[1 / 2, 1 / 2, 1 / 2, 1 / 2], rfl⟩

/-- The 2×2 integer matrix [[1,2],[3,4]]. -/
def mat22 : Matrix Int 2 2 := ⟨[1, 2, 3, 4], rfl⟩

/-- The 2×2 integer matrix [[5,6],[7,8]]. -/
def mat22b : Matrix Int 2 2 := ⟨[5, 6, 7, 8], rfl⟩

/-- The 2×3 integer matrix [[1,2,3],[4,5,6]]. -/
def mat23 : Matrix Int 2 3 := ⟨[1, 2, 3, 4, 5, 6], rfl⟩

/-- The vector (3, 4) with a fractional element type. -/
def vec34 : Vector ℚ 2 := ⟨[3, 4], rfl⟩

/-- The vector (1, 2, 3) with an integer element type. -/
def ivec123 : Vector Int 3 := ⟨[1, 2, 3], rfl⟩

/-- The vector (2^30, 1, 0) of 32-bit `int` elements. -/
def wide_vec : Vector CInt 3 :=
  ⟨[⟨1073741824, by decide⟩, ⟨1, by decide⟩, ⟨0, by decide⟩], rfl⟩

/-- The vector (-7, 3, 0) of 32-bit `int` elements. -/
def signed_vec : Vector CInt 3 :=
  ⟨[⟨-7, by decide⟩, ⟨3, by decide⟩, ⟨0, by decide⟩], rfl⟩

/-- The 32-bit `int` scalar 4. -/
def cint4 : CInt := ⟨4, by decide⟩

/-- The 32-bit `int` scalar -2. -/
def cint_neg2 : CInt := ⟨-2, by decide⟩

/-- The vector (Cell{1}, Cell{2}, Cell{3}) of class-type elements. -/
def cells : Vector Cell 3 := ⟨[⟨1⟩, ⟨2⟩, ⟨3⟩], rfl⟩

/-- The 3×3 integer matrix [[1,2,3],[4,5,6],[7,8,9]]. -/
def mat33 : Matrix Int 3 3 := ⟨[1, 2, 3, 4, 5, 6, 7, 8, 9], rfl⟩

/-! ## Element-wise arithmetic -/

section Elementwise

variable {TYPE : Type}

theorem transform_eq_zipWith (op : TYPE → TYPE → TYPE) :
    ∀ xs ys ds : List TYPE, xs.length = ds.length → ys.length = ds.length →
      transform op xs ys ds = List.zipWith op xs ys
  | [], _, [], _, _ => by simp [transform]
  | [], _, _ :: _, h, _ => by simp at h
  | _ :: _, _, [], h, _ => by simp at h
  | _ :: _, [], _ :: _, _, h => by simp at h
  | _ :: xs, _ :: ys, _ :: ds, hx, hy => by
      simp only [List.length_cons, Nat.add_right_cancel_iff] at hx hy
      simp [transform, transform_eq_zipWith op xs ys ds hx hy]

/-- Reading position `i` of the destination after `std::transform` over three
ranges of the same length `n`. -/
theorem getElem?_transform (op : TYPE → TYPE → TYPE) (xs ys ds : List TYPE) (n i : Nat)
    (hx : xs.length = n) (hy : ys.length = n) (hd : ds.length = n) (hi : i < n) :
    ∃ x y, xs[i]? = some x ∧ ys[i]? = some y ∧ (transform op xs ys ds)[i]? = some (op x y) := by
  have hxi : i < xs.length := by omega
  have hyi : i < ys.length := by omega
  refine ⟨xs[i], ys[i], List.getElem?_eq_getElem hxi, List.getElem?_eq_getElem hyi, ?_⟩
  rw [transform_eq_zipWith op xs ys ds (by omega) (by omega), List.getElem?_zipWith,
    List.getElem?_eq_getElem hxi, List.getElem?_eq_getElem hyi]

/-- Reading position `i` of the destination after `fill(val)` followed by
`std::transform` against the filled destination itself. -/
theorem getElem?_transform_fill (op : TYPE → TYPE → TYPE) (xs ds : List TYPE) (val : TYPE)
    (n i : Nat) (hx : xs.length = n) (hd : ds.length = n) (hi : i < n) :
    ∃ x, xs[i]? = some x ∧
      (transform op xs (fill ds val) (fill ds val))[i]? = some (op x val) := by
  obtain ⟨x, y, h1, h2, h3⟩ := getElem?_transform op xs (fill ds val) (fill ds val) n i hx
    (by rw [length_fill, hd]) (by rw [length_fill, hd]) hi
  have hy : y = val := by
    have hlen : i < ds.length := by omega
    rw [fill, List.getElem?_map, List.getElem?_eq_getElem hlen] at h2
    simpa using h2.symm
  subst hy
  exact ⟨x, h1, h3⟩

end Elementwise

/-- C1: for same-shape containers `a` and `b` (vectors, and likewise matrices)
and each operator among `+ - * /`, the element of `a op b` at every position is
`op` applied to the element of `a` (left) and the element of `b` (right) at that
position, so `*` is element-wise; the result has the operands' shape (by its
type). -/
theorem elementwise_container_container {TYPE : Type} [Scalar TYPE] {SIZE ROWS COLS : Nat}
    (a b : Vector TYPE SIZE) (ma mb : Matrix TYPE ROWS COLS) (i p : Nat)
    (hi : i < SIZE) (hp : p < ROWS * COLS) :
    (∃ x y, a.get? i = some x ∧ b.get? i = some y ∧
      (a.operator_plus b).get? i = some (Scalar.plus x y) ∧
      (a.operator_minus b).get? i = some (Scalar.minus x y) ∧
      (a.operator_multiplies b).get? i = some (Scalar.multiplies x y) ∧
      (a.operator_divides b).get? i = some (Scalar.divides x y)) ∧
    (∃ x y, ma.elems[p]? = some x ∧ mb.elems[p]? = some y ∧
      (ma.operator_plus mb).elems[p]? = some (Scalar.plus x y) ∧
      (ma.operator_minus mb).elems[p]? = some (Scalar.minus x y) ∧
      (ma.operator_multiplies mb).elems[p]? = some (Scalar.multiplies x y) ∧
      (ma.operator_divides mb).elems[p]? = some (Scalar.divides x y)) := by
  have hv : ∀ op : TYPE → TYPE → TYPE, ∃ x y, a.elems[i]? = some x ∧ b.elems[i]? = some y ∧
      (a.arithmetic_operation b op).elems[i]? = some (op x y) := fun op =>
    getElem?_transform op a.elems b.elems _ SIZE i a.size_eq b.size_eq
      (Vector.default : Vector TYPE SIZE).size_eq hi
  have hm : ∀ op : TYPE → TYPE → TYPE, ∃ x y, ma.elems[p]? = some x ∧ mb.elems[p]? = some y ∧
      (ma.arithmetic_operation mb op).elems[p]? = some (op x y) := fun op =>
    getElem?_transform op ma.elems mb.elems _ (ROWS * COLS) p ma.size_eq mb.size_eq
      (Matrix.default : Matrix TYPE ROWS COLS).size_eq hp
  constructor
  · obtain ⟨x, y, hx, hy, h1⟩ := hv Scalar.plus
    obtain ⟨x2, y2, hx2, hy2, h2⟩ := hv Scalar.minus
    obtain ⟨x3, y3, hx3, hy3, h3⟩ := hv Scalar.multiplies
    obtain ⟨x4, y4, hx4, hy4, h4⟩ := hv Scalar.divides
    rw [hx] at hx2 hx3 hx4
    rw [hy] at hy2 hy3 hy4
    cases hx2; cases hx3; cases hx4; cases hy2; cases hy3; cases hy4
    exact ⟨x, y, hx, hy, h1, h2, h3, h4⟩
  · obtain ⟨x, y, hx, hy, h1⟩ := hm Scalar.plus
    obtain ⟨x2, y2, hx2, hy2, h2⟩ := hm Scalar.minus
    obtain ⟨x3, y3, hx3, hy3, h3⟩ := hm Scalar.multiplies
    obtain ⟨x4, y4, hx4, hy4, h4⟩ := hm Scalar.divides
    rw [hx] at hx2 hx3 hx4
    rw [hy] at hy2 hy3 hy4
    cases hx2; cases hx3; cases hx4; cases hy2; cases hy3; cases hy4
    exact ⟨x, y, hx, hy, h1, h2, h3, h4⟩

/-- Witness for C1: the theorem at the integer vectors (2,2,2), (3,3,3) and the
2×2 matrices [[1,2],[3,4]], [[5,6],[7,8]], with the sample results
(2,2,2)+(3,3,3) = (5,5,5), (2,2,2)-(3,3,3) = (-1,-1,-1) and
(2,2,2)*(3,3,3) = (6,6,6), and the element-wise (not matrix) product
[[1,2],[3,4]]*[[5,6],[7,8]] = [[5,12],[21,32]]. -/
theorem elementwise_container_container_witness :
    (ivec1.operator_plus ivec2 = ⟨[5, 5, 5], rfl⟩ ∧
      ivec1.operator_minus ivec2 = ⟨[-1, -1, -1], rfl⟩ ∧
      ivec1.operator_multiplies ivec2 = ⟨[6, 6, 6], rfl⟩ ∧
      mat22.operator_multiplies mat22b = ⟨[5, 12, 21, 32], rfl⟩) ∧
    ((∃ x y, ivec1.get? 1 = some x ∧ ivec2.get? 1 = some y ∧
        (ivec1.operator_plus ivec2).get? 1 = some (Scalar.plus x y) ∧
        (ivec1.operator_minus ivec2).get? 1 = some (Scalar.minus x y) ∧
        (ivec1.operator_multiplies ivec2).get? 1 = some (Scalar.multiplies x y) ∧
        (ivec1.operator_divides ivec2).get? 1 = some (Scalar.divides x y)) ∧
      (∃ x y, mat22.elems[3]? = some x ∧ mat22b.elems[3]? = some y ∧
        (mat22.operator_plus mat22b).elems[3]? = some (Scalar.plus x y) ∧
        (mat22.operator_minus mat22b).elems[3]? = some (Scalar.minus x y) ∧
        (mat22.operator_multiplies mat22b).elems[3]? = some (Scalar.multiplies x y) ∧
        (mat22.operator_divides mat22b).elems[3]? = some (Scalar.divides x y))) :=
  ⟨by decide,
    elementwise_container_container ivec1 ivec2 mat22 mat22b 1 3 (by decide) (by decide)⟩

/-- C2: for a container `a` (a vector, and likewise a matrix), a scalar `s` and
each operator among `+ - * /`, the element of `a op s` at every position is
`op` applied to the element of `a` as left operand and `s` as right operand; the
result has the shape of `a` (by its type). -/
theorem elementwise_container_scalar {TYPE : Type} [Scalar TYPE] {SIZE ROWS COLS : Nat}
    (a : Vector TYPE SIZE) (ma : Matrix TYPE ROWS COLS) (s : TYPE) (i p : Nat)
    (hi : i < SIZE) (hp : p < ROWS * COLS) :
    (∃ x, a.get? i = some x ∧
      (a.operator_plus_val s).get? i = some (Scalar.plus x s) ∧
      (a.operator_minus_val s).get? i = some (Scalar.minus x s) ∧
      (a.operator_multiplies_val s).get? i = some (Scalar.multiplies x s) ∧
      (a.operator_divides_val s).get? i = some (Scalar.divides x s)) ∧
    (∃ x, ma.elems[p]? = some x ∧
      (ma.operator_plus_val s).elems[p]? = some (Scalar.plus x s) ∧
      (ma.operator_minus_val s).elems[p]? = some (Scalar.minus x s) ∧
      (ma.operator_multiplies_val s).elems[p]? = some (Scalar.multiplies x s) ∧
      (ma.operator_divides_val s).elems[p]? = some (Scalar.divides x s)) := by
  have hv : ∀ op : TYPE → TYPE → TYPE, ∃ x, a.elems[i]? = some x ∧
      (a.arithmetic_operation_val s op).elems[i]? = some (op x s) := fun op =>
    getElem?_transform_fill op a.elems _ s SIZE i a.size_eq
      (Vector.default : Vector TYPE SIZE).size_eq hi
  have hm : ∀ op : TYPE → TYPE → TYPE, ∃ x, ma.elems[p]? = some x ∧
      (ma.arithmetic_operation_val s op).elems[p]? = some (op x s) := fun op =>
    getElem?_transform_fill op ma.elems _ s (ROWS * COLS) p ma.size_eq
      (Matrix.default : Matrix TYPE ROWS COLS).size_eq hp
  constructor
  · obtain ⟨x, hx, h1⟩ := hv Scalar.plus
    obtain ⟨x2, hx2, h2⟩ := hv Scalar.minus
    obtain ⟨x3, hx3, h3⟩ := hv Scalar.multiplies
    obtain ⟨x4, hx4, h4⟩ := hv Scalar.divides
    rw [hx] at hx2 hx3 hx4
    cases hx2; cases hx3; cases hx4
    exact ⟨x, hx, h1, h2, h3, h4⟩
  · obtain ⟨x, hx, h1⟩ := hm Scalar.plus
    obtain ⟨x2, hx2, h2⟩ := hm Scalar.minus
    obtain ⟨x3, hx3, h3⟩ := hm Scalar.multiplies
    obtain ⟨x4, hx4, h4⟩ := hm Scalar.divides
    rw [hx] at hx2 hx3 hx4
    cases hx2; cases hx3; cases hx4
    exact ⟨x, hx, h1, h2, h3, h4⟩

/-- Witness for C2: the theorem at the integer vector (2,2,2), the matrix
[[1,2],[3,4]] and the scalar 2, with the sample results (2,2,2)+2 = (4,4,4),
(2,2,2)-2 = (0,0,0), (2,2,2)*2 = (4,4,4), (2,2,2)/2 = (1,1,1), and
(7,-7,1)-2 = (5,-9,-1), (7,-7,1)/2 = (3,-3,0) for the operand order. -/
theorem elementwise_container_scalar_witness :
    (ivec1.operator_plus_val 2 = ⟨[4, 4, 4], rfl⟩ ∧
      ivec1.operator_minus_val 2 = ⟨[0, 0, 0], rfl⟩ ∧
      ivec1.operator_multiplies_val 2 = ⟨[4, 4, 4], rfl⟩ ∧
      ivec1.operator_divides_val 2 = ⟨[1, 1, 1], rfl⟩ ∧
      Vector.operator_minus_val (⟨[7, -7, 1], rfl⟩ : Vector Int 3) 2 = ⟨[5, -9, -1], rfl⟩ ∧
      Vector.operator_divides_val (⟨[7, -7, 1], rfl⟩ : Vector Int 3) 2 = ⟨[3, -3, 0], rfl⟩) ∧
    ((∃ x, ivec1.get? 1 = some x ∧
        (ivec1.operator_plus_val 2).get? 1 = some (Scalar.plus x 2) ∧
        (ivec1.operator_minus_val 2).get? 1 = some (Scalar.minus x 2) ∧
        (ivec1.operator_multiplies_val 2).get? 1 = some (Scalar.multiplies x 2) ∧
        (ivec1.operator_divides_val 2).get? 1 = some (Scalar.divides x 2)) ∧
      (∃ x, mat22.elems[3]? = some x ∧
        (mat22.operator_plus_val 2).elems[3]? = some (Scalar.plus x 2) ∧
        (mat22.operator_minus_val 2).elems[3]? = some (Scalar.minus x 2) ∧
        (mat22.operator_multiplies_val 2).elems[3]? = some (Scalar.multiplies x 2) ∧
        (mat22.operator_divides_val 2).elems[3]? = some (Scalar.divides x 2))) :=
  ⟨by decide, elementwise_container_scalar ivec1 mat22 2 1 3 (by decide) (by decide)⟩

/-- The sample operations of `main` on the fractional vectors `vec1` = (2,2,2)
and `vec2` = (3,3,3). -/
theorem main_samples :
    vec1.operator_plus vec2 = ⟨[5, 5, 5], rfl⟩ ∧
    vec1.operator_minus vec2 = ⟨[-1, -1, -1], rfl⟩ ∧
    vec1.operator_multiplies vec2 = ⟨[6, 6, 6], rfl⟩ ∧
    vec1.operator_divides vec2 = ⟨[2 / 3, 2 / 3, 2 / 3], rfl⟩ ∧
    vec1.operator_plus_val 2 = ⟨[4, 4, 4], rfl⟩ ∧
    vec1.operator_minus_val 2 = ⟨[0, 0, 0], rfl⟩ ∧
    vec1.operator_multiplies_val 2 = ⟨[4, 4, 4], rfl⟩ ∧
    vec1.operator_divides_val 2 = ⟨[1, 1, 1], rfl⟩ := by
  simp only [vec1, vec2, Vector.operator_plus, Vector.operator_minus, Vector.operator_multiplies,
    Vector.operator_divides, Vector.operator_plus_val, Vector.operator_minus_val,
    Vector.operator_multiplies_val, Vector.operator_divides_val, Vector.arithmetic_operation,
    Vector.arithmetic_operation_val, Vector.default, List.replicate, fill, List.map, transform,
    Scalar.plus, Scalar.minus, Scalar.multiplies, Scalar.divides, Vector.mk.injEq]
  norm_num

/-! ## Row-major indexing -/

section Indexing

theorem index_lt {R C i j : Nat} (hi : i < R) (hj : j < C) : Matrix.index C i j < R * C := by
  unfold Matrix.index
  calc i * C + j < i * C + C := by omega
    _ = (i + 1) * C := by ring
    _ ≤ R * C := Nat.mul_le_mul_right C hi

theorem index_inj {C i j k l : Nat} (hj : j < C) (hl : l < C)
    (h : Matrix.index C i j = Matrix.index C k l) : i = k ∧ j = l := by
  unfold Matrix.index at h
  have hC : 0 < C := by omega
  have h1 : (i * C + j) / C = i := by
    rw [Nat.add_comm, Nat.add_mul_div_right _ _ hC, Nat.div_eq_of_lt hj, Nat.zero_add]
  have h2 : (k * C + l) / C = k := by
    rw [Nat.add_comm, Nat.add_mul_div_right _ _ hC, Nat.div_eq_of_lt hl, Nat.zero_add]
  have hik : i = k := by rw [← h1, ← h2, h]
  subst hik
  exact ⟨rfl, by omega⟩

variable {TYPE : Type} {ROWS COLS : Nat}

theorem get?_eq_some (m : Matrix TYPE ROWS COLS) {i j : Nat} (hi : i < ROWS) (hj : j < COLS) :
    ∃ x, m.get? i j = some x := by
  have h : Matrix.index COLS i j < m.elems.length := by
    rw [m.size_eq]; exact index_lt hi hj
  exact ⟨m.elems[Matrix.index COLS i j], List.getElem?_eq_getElem h⟩

/-- An in-range assignment `m(i, j) = x` succeeds; afterwards cell `(i, j)` reads
`x` and every other in-range cell reads what it read before. -/
theorem set?_spec (m : Matrix TYPE ROWS COLS) {i j : Nat} (x : TYPE)
    (hi : i < ROWS) (hj : j < COLS) :
    ∃ r, m.set? i j x = some r ∧
      ∀ k l, l < COLS → r.get? k l = if k = i ∧ l = j then some x else m.get? k l := by
  have h : Matrix.index COLS i j < m.elems.length := by
    rw [m.size_eq]; exact index_lt hi hj
  refine ⟨⟨m.elems.set (Matrix.index COLS i j) x, by
    rw [List.length_set]; exact m.size_eq⟩, ?_, ?_⟩
  · simp [Matrix.set?, h]
  · intro k l hl
    simp only [Matrix.get?, List.getElem?_set, h, if_true]
    by_cases hkl : k = i ∧ l = j
    · obtain ⟨rfl, rfl⟩ := hkl
      simp
    · have hne : Matrix.index COLS i j ≠ Matrix.index COLS k l := by
        intro heq
        obtain ⟨h1, h2⟩ := index_inj hj hl heq
        exact hkl ⟨h1.symm, h2.symm⟩
      simp [hne, hkl]

end Indexing

/-! ## `transposed` -/

section Transposed

variable {TYPE : Type} {ROWS COLS : Nat}

/-- The inner loop of `transposed` for row `i`, run for `j = 0, ..., n - 1`:
it succeeds, writes `result(j, i) = self(i, j)` for those `j` and leaves the
other cells of `result` as they were. -/
theorem transposed_inner (self : Matrix TYPE ROWS COLS) {i : Nat} (hi : i < ROWS) :
    ∀ (n : Nat) (result : Matrix TYPE COLS ROWS), n ≤ COLS →
      ∃ r, (List.range n).foldlM
          (fun result j => (self.get? i j).bind fun x => result.set? j i x) result = some r ∧
        ∀ k l, k < COLS → l < ROWS →
          r.get? k l = if l = i ∧ k < n then self.get? l k else result.get? k l := by
  intro n
  induction n with
  | zero =>
    intro result _
    exact ⟨result, by simp, by intro k l _ _; simp⟩
  | succ n ih =>
    intro result hn
    obtain ⟨r, hr, hget⟩ := ih result (by omega)
    obtain ⟨x, hx⟩ := get?_eq_some self hi (show n < COLS by omega)
    obtain ⟨r2, hr2, hget2⟩ := set?_spec r x (show n < COLS by omega) hi
    refine ⟨r2, ?_, ?_⟩
    · rw [List.range_succ, List.foldlM_append, hr]
      simp [hx, hr2]
    · intro k l hk hl
      rw [hget2 k l hl, hget k l hk hl]
      by_cases h1 : k = n ∧ l = i
      · obtain ⟨rfl, rfl⟩ := h1
        simp [hx]
      · by_cases h2 : l = i ∧ k < n
        · obtain ⟨h4, h5⟩ := h2
          have h6 : k ≠ n := by omega
          have h7 : k < n + 1 := by omega
          simp [h4, h5, h6, h7]
        · have h3 : ¬ (l = i ∧ k < n + 1) := by
            rintro ⟨h4, h5⟩
            rcases Nat.lt_succ_iff_lt_or_eq.mp h5 with h6 | h6
            · exact h2 ⟨h4, h6⟩
            · exact h1 ⟨h6, h4⟩
          simp [h1, h2, h3]

/-- The outer loop of `transposed`, run for `i = 0, ..., m - 1`: it succeeds,
and rows `i < m` of `self` have been written into `result`. -/
theorem transposed_outer [Scalar TYPE] (self : Matrix TYPE ROWS COLS) :
    ∀ m : Nat, m ≤ ROWS →
      ∃ r : Matrix TYPE COLS ROWS, (List.range m).foldlM
          (fun result i =>
            (List.range COLS).foldlM
              (fun result j => (self.get? i j).bind fun x => result.set? j i x) result)
          Matrix.default = some r ∧
        ∀ k l, k < COLS → l < ROWS →
          r.get? k l = if l < m then self.get? l k
            else (Matrix.default : Matrix TYPE COLS ROWS).get? k l := by
  intro m
  induction m with
  | zero =>
    intro _
    exact ⟨Matrix.default, by simp, by intro k l _ _; simp⟩
  | succ m ih =>
    intro hm
    obtain ⟨r, hr, hget⟩ := ih (by omega)
    obtain ⟨r2, hr2, hget2⟩ := transposed_inner self (show m < ROWS by omega) COLS r (le_refl _)
    refine ⟨r2, ?_, ?_⟩
    · rw [List.range_succ, List.foldlM_append, hr]
      simp [hr2]
    · intro k l hk hl
      rw [hget2 k l hk hl, hget k l hk hl]
      by_cases h1 : l = m
      · subst h1
        simp [hk]
      · by_cases h2 : l < m
        · have h3 : l < m + 1 := by omega
          simp [h1, h2, h3]
        · have h3 : ¬ l < m + 1 := by omega
          simp [h1, h2, h3]

/-- The specification of `transposed`: it returns a matrix `t`, and
`t(j, i) = self(i, j)` for every in-range `(i, j)`. -/
theorem transposed_get? [Scalar TYPE] (self : Matrix TYPE ROWS COLS) :
    ∃ t, self.transposed = some t ∧
      ∀ i j, i < ROWS → j < COLS → t.get? j i = self.get? i j := by
  obtain ⟨t, ht, hget⟩ := transposed_outer self ROWS (le_refl _)
  refine ⟨t, ht, ?_⟩
  intro i j hi hj
  rw [hget j i hj hi]
  simp [hi]

end Transposed

/-- C3: for every `ROWS`×`COLS` matrix `m`, `m.transposed()` returns a
`COLS`×`ROWS` matrix `t` with `t(j, i) = m(i, j)` for all `i < ROWS` and
`j < COLS`, both cells being inside their storage.  (`transposed` is a `const`
member: it is a function of `m` and `m` is not modified.) -/
theorem transposed_spec {TYPE : Type} [Scalar TYPE] {ROWS COLS : Nat}
    (m : Matrix TYPE ROWS COLS) :
    ∃ t : Matrix TYPE COLS ROWS, m.transposed = some t ∧
      ∀ i j, i < ROWS → j < COLS → ∃ x, m.get? i j = some x ∧ t.get? j i = some x := by
  obtain ⟨t, ht, hget⟩ := transposed_get? m
  refine ⟨t, ht, ?_⟩
  intro i j hi hj
  obtain ⟨x, hx⟩ := get?_eq_some m hi hj
  exact ⟨x, hx, by rw [hget i j hi hj, hx]⟩

/-- Witness for C3: [[1,2],[3,4]] transposes to [[1,3],[2,4]], the 2×3 matrix
[[1,2,3],[4,5,6]] to the 3×2 matrix [[1,4],[2,5],[3,6]], and the theorem at the
2×3 matrix. -/
theorem transposed_spec_witness :
    mat22.transposed = some ⟨[1, 3, 2, 4], rfl⟩ ∧
    mat23.transposed = some ⟨[1, 4, 2, 5, 3, 6], rfl⟩ ∧
    ∃ t : Matrix Int 3 2, mat23.transposed = some t ∧
      ∀ i j, i < 2 → j < 3 → ∃ x, mat23.get? i j = some x ∧ t.get? j i = some x :=
  ⟨by decide, by decide, transposed_spec mat23⟩

/-- C4: for every `ROWS`×`COLS` matrix `m`, square or not,
`m.transposed().transposed()` is computed and equals `m`: the same shape and the
same value in every storage position. -/
theorem transposed_transposed {TYPE : Type} [Scalar TYPE] {ROWS COLS : Nat}
    (m : Matrix TYPE ROWS COLS) :
    m.transposed.bind Matrix.transposed = some m := by
  obtain ⟨t, ht, hget⟩ := transposed_get? m
  obtain ⟨u, hu, hget2⟩ := transposed_get? t
  rw [ht, Option.some_bind, hu]
  congr 1
  have hel : u.elems = m.elems := by
    apply List.ext_getElem?
    intro p
    by_cases hp : p < ROWS * COLS
    · have hC : 0 < COLS := by
        rcases Nat.eq_zero_or_pos COLS with h | h
        · rw [h] at hp; simp at hp
        · exact h
      have hi : p / COLS < ROWS := (Nat.div_lt_iff_lt_mul hC).mpr hp
      have hj : p % COLS < COLS := Nat.mod_lt _ hC
      have h1 := hget2 (p % COLS) (p / COLS) hj hi
      rw [hget (p / COLS) (p % COLS) hi hj] at h1
      have hidx : Matrix.index COLS (p / COLS) (p % COLS) = p := by
        unfold Matrix.index
        rw [Nat.mul_comm]
        exact Nat.div_add_mod p COLS
      simpa [Matrix.get?, hidx] using h1
    · have h1 : u.elems.length ≤ p := by rw [u.size_eq]; omega
      have h2 : m.elems.length ≤ p := by rw [m.size_eq]; omega
      rw [List.getElem?_eq_none h1, List.getElem?_eq_none h2]
  cases u
  cases m
  simp only [Matrix.mk.injEq]
  exact hel

/-! ## `identity` -/

section Identity

variable {TYPE : Type}

theorem default_get? [Scalar TYPE] {ROWS COLS i j : Nat} (hi : i < ROWS) (hj : j < COLS) :
    (Matrix.default : Matrix TYPE ROWS COLS).get? i j = some (Scalar.fromInt 0) := by
  simp [Matrix.get?, Matrix.default, List.getElem?_replicate, index_lt hi hj]

/-- The loop of `identity`, run for `i = 0, ..., m - 1`: it succeeds; the
diagonal cells `(i, i)` with `i < m` hold 1 and every other cell holds 0. -/
theorem identity_loop (TYPE : Type) [Scalar TYPE] (N : Nat) :
    ∀ m : Nat, m ≤ N →
      ∃ r : Matrix TYPE N N, (List.range m).foldlM
          (fun result i => result.set? i i (Scalar.fromInt 1)) Matrix.default = some r ∧
        ∀ i j, i < N → j < N →
          r.get? i j = some (if i = j ∧ i < m then Scalar.fromInt 1 else Scalar.fromInt 0) := by
  intro m
  induction m with
  | zero =>
    intro _
    exact ⟨Matrix.default, by simp, by intro i j hi hj; simp [default_get? hi hj]⟩
  | succ m ih =>
    intro hm
    obtain ⟨r, hr, hget⟩ := ih (by omega)
    obtain ⟨r2, hr2, hget2⟩ := set?_spec r (Scalar.fromInt 1 : TYPE)
      (show m < N by omega) (show m < N by omega)
    refine ⟨r2, ?_, ?_⟩
    · rw [List.range_succ, List.foldlM_append, hr]
      simp [hr2]
    · intro i j hi hj
      rw [hget2 i j hj, hget i j hi hj]
      by_cases h1 : i = m ∧ j = m
      · obtain ⟨rfl, rfl⟩ := h1
        simp
      · by_cases h2 : i = j ∧ i < m
        · obtain ⟨h4, h5⟩ := h2
          subst h4
          have h6 : i < m + 1 := by omega
          have h7 : i ≠ m := by omega
          simp [h5, h6, h7]
        · have h3 : ¬ (i = j ∧ i < m + 1) := by
            rintro ⟨h4, h5⟩
            rcases Nat.lt_succ_iff_lt_or_eq.mp h5 with h6 | h6
            · exact h2 ⟨h4, h6⟩
            · exact h1 ⟨h6, by omega⟩
          simp [h1, h2, h3]

end Identity

/-- C5: for every `N`, `Matrix<TYPE, N, N>::identity()` returns a matrix whose
cell `(i, j)` is 1 when `i = j` and 0 when `i ≠ j`, for all `i, j < N` (1 and 0
being the `int` literals converted to the element type; the zeros are those of
the default constructor). -/
theorem identity_spec {TYPE : Type} [Scalar TYPE] {N : Nat} :
    ∃ r : Matrix TYPE N N, Matrix.identity = some r ∧
      ∀ i j, i < N → j < N →
        r.get? i j = some (if i = j then Scalar.fromInt 1 else Scalar.fromInt 0) := by
  obtain ⟨r, hr, hget⟩ := identity_loop TYPE N N (le_refl N)
  refine ⟨r, hr, ?_⟩
  intro i j hi hj
  rw [hget i j hi hj]
  simp [hi]

/-- Witness for C5: the 3×3 integer identity matrix, and the theorem at
`N = 3`. -/
theorem identity_spec_witness :
    (Matrix.identity : Option (Matrix Int 3 3)) = some ⟨[1, 0, 0, 0, 1, 0, 0, 0, 1], rfl⟩ ∧
    ∃ r : Matrix Int 3 3, Matrix.identity = some r ∧
      ∀ i j, i < 3 → j < 3 →
        r.get? i j = some (if i = j then Scalar.fromInt 1 else Scalar.fromInt 0) :=
  ⟨by decide, identity_spec⟩

/-! ## `sum` and `dot` -/

section Accumulate

theorem accumulate_int (xs : List Int) :
    ∀ acc : Int, accumulate xs acc = xs.foldl Scalar.plus acc := by
  induction xs with
  | nil => intro acc; rfl
  | cons x xs ih => intro acc; simp only [accumulate, List.foldl_cons]; exact ih _

theorem inner_product_int :
    ∀ (xs ys : List Int) (acc : Int),
      inner_product xs ys acc = (List.zipWith Scalar.multiplies xs ys).foldl Scalar.plus acc
  | [], _, _ => by simp [inner_product]
  | _ :: _, [], _ => by simp [inner_product]
  | x :: xs, y :: ys, acc => by
      simp only [inner_product, List.zipWith_cons_cons, List.foldl_cons]
      exact inner_product_int xs ys _

/-- For integer element types `sum()` is the sum of the specification. -/
theorem sum_int_eq_sum_spec {N : Nat} (a : Vector Int N) : a.sum = sum_spec a.elems := by
  simp only [Vector.sum, sum_spec, accumulate_int]
  rfl

/-- For integer element types `dot(other)` is the sum of products of the
specification. -/
theorem dot_int_eq_dot_spec {N : Nat} (a b : Vector Int N) :
    a.dot b = dot_spec a.elems b.elems := by
  simp only [Vector.dot, dot_spec, inner_product_int]
  rfl

theorem toInt_half : Scalar.toInt (1 / 2 : ℚ) = 0 := by
  simp only [Scalar.toInt]
  norm_num
  decide

theorem toInt_quarter : Scalar.toInt (1 / 4 : ℚ) = 0 := by
  simp only [Scalar.toInt]
  norm_num
  decide

end Accumulate

/-- C6, at the failing input: for the fractional vector a = b = (0.5, 0.5) the
code's `a.dot(b)` is 0, because `std::inner_product` is seeded with the `int`
literal `0` and truncates its accumulator to `int` at every step, while the sum
of products computed in the element type is 0.5. -/
theorem dot_fractional_truncated :
    half2.dot half2 = 0 ∧ dot_spec half2.elems half2.elems = 1 / 2 ∧
      half2.dot half2 ≠ dot_spec half2.elems half2.elems := by
  have h1 : half2.dot half2 = 0 := by
    simp only [Vector.dot, half2, inner_product]
    have hq : Scalar.multiplies (1 / 2 : ℚ) (1 / 2) = 1 / 4 := by
      simp only [Scalar.multiplies]; norm_num
    have hp : Scalar.plus (Scalar.fromInt 0 : ℚ) (1 / 4) = 1 / 4 := by
      simp only [Scalar.plus, Scalar.fromInt]; norm_num
    rw [hq, hp, toInt_quarter, hp, toInt_quarter]
    simp [Scalar.fromInt]
  have h2 : dot_spec half2.elems half2.elems = 1 / 2 := by
    simp only [dot_spec, half2, List.zipWith, List.foldl, Scalar.multiplies, Scalar.plus,
      Scalar.fromInt]
    norm_num
  refine ⟨h1, h2, ?_⟩
  rw [h1, h2]
  norm_num

/-- C7, at the failing input: for the fractional vector (0.5, 0.5, 0.5, 0.5) the
code's `sum()` is 0, because `std::accumulate` is seeded with the `int` literal
`0` and truncates its accumulator to `int` at every step, while the sum computed
in the element type is 2. -/
theorem sum_fractional_truncated :
    half4.sum = 0 ∧ sum_spec half4.elems = 2 ∧ half4.sum ≠ sum_spec half4.elems := by
  have hp : Scalar.plus (Scalar.fromInt 0 : ℚ) (1 / 2) = 1 / 2 := by
    simp only [Scalar.plus, Scalar.fromInt]; norm_num
  have h1 : half4.sum = 0 := by
    simp only [Vector.sum, half4, accumulate]
    rw [hp, toInt_half, hp, toInt_half, hp, toInt_half, hp, toInt_half]
    simp [Scalar.fromInt]
  have h2 : sum_spec half4.elems = 2 := by
    simp only [sum_spec, half4, List.foldl, Scalar.plus, Scalar.fromInt]
    norm_num
  refine ⟨h1, h2, ?_⟩
  rw [h1, h2]
  norm_num

/-- The integer samples of `sum()` and `dot(other)`: (1,2,3).sum() = 6 and
(1,2,3).dot((4,5,6)) = 32. -/
theorem sum_dot_int_samples :
    Vector.sum (⟨[1, 2, 3], rfl⟩ : Vector Int 3) = 6 ∧
    Vector.dot (⟨[1, 2, 3], rfl⟩ : Vector Int 3) ⟨[4, 5, 6], rfl⟩ = 32 := by
  decide

theorem inner_product_comm {TYPE : Type} [Scalar TYPE]
    (hcomm : ∀ x y : TYPE, Scalar.multiplies x y = Scalar.multiplies y x) :
    ∀ (xs ys : List TYPE) (acc : Int), inner_product xs ys acc = inner_product ys xs acc
  | [], [], _ => rfl
  | [], _ :: _, _ => by simp [inner_product]
  | _ :: _, [], _ => by simp [inner_product]
  | x :: xs, y :: ys, acc => by
      simp only [inner_product]
      rw [hcomm x y]
      exact inner_product_comm hcomm xs ys _

/-- C8: `a.dot(b) == b.dot(a)` for all vectors `a`, `b` of the same type, for
integer element types and for fractional element types alike: the fold adds the
same products `a[i] * b[i] = b[i] * a[i]` in the same order. -/
theorem dot_comm {N : Nat} :
    (∀ a b : Vector Int N, a.dot b = b.dot a) ∧ (∀ a b : Vector ℚ N, a.dot b = b.dot a) := by
  constructor
  · intro a b
    simp only [Vector.dot]
    rw [inner_product_comm (fun x y => Int.mul_comm x y) a.elems b.elems 0]
  · intro a b
    simp only [Vector.dot]
    rw [inner_product_comm (fun x y => Rat.mul_comm x y) a.elems b.elems 0]

/-! ## Round trips of the arithmetic operators -/

section RoundTrip

theorem equal_self {TYPE : Type} [DecidableEq TYPE] (xs : List TYPE) : equal xs xs = true := by
  induction xs with
  | nil => rfl
  | cons x xs ih => simp [equal, ih]

theorem zipWith_minus_plus :
    ∀ xs ys : List Int, xs.length = ys.length →
      List.zipWith Scalar.minus (List.zipWith Scalar.plus xs ys) ys = xs
  | [], [], _ => rfl
  | [], _ :: _, h => by simp at h
  | _ :: _, [], h => by simp at h
  | x :: xs, y :: ys, h => by
      simp only [List.length_cons, Nat.add_right_cancel_iff] at h
      have hxy : Scalar.minus (Scalar.plus x y) y = x := by
        show x + y - y = x
        omega
      simp only [List.zipWith_cons_cons]
      rw [zipWith_minus_plus xs ys h, hxy]

theorem transform_fill_eq_map {TYPE : Type} (op : TYPE → TYPE → TYPE) (val : TYPE) :
    ∀ xs ds : List TYPE, xs.length = ds.length →
      transform op xs (fill ds val) (fill ds val) = xs.map fun x => op x val
  | [], [], _ => rfl
  | [], _ :: _, h => by simp at h
  | _ :: _, [], h => by simp at h
  | x :: xs, d :: ds, h => by
      simp only [List.length_cons, Nat.add_right_cancel_iff] at h
      have hf : fill (d :: ds) val = val :: fill ds val := rfl
      rw [hf]
      simp only [transform, List.map_cons]
      rw [transform_fill_eq_map op val xs ds h]

theorem wrap32_of_range (x : Int) (h : INT_MIN ≤ x ∧ x ≤ INT_MAX) : wrap32 x = x := by
  unfold INT_MIN INT_MAX at h
  unfold wrap32
  omega

theorem cint_eq_of_val (x y : CInt) (h : x.val = y.val) : x = y := by
  cases x
  cases y
  simp only [CInt.mk.injEq]
  exact h

/-- At the fixed width, dividing a product by a nonzero factor gives the other
factor back when the product did not overflow. -/
theorem cint_divides_multiplies (x s : CInt) (hs : s.val ≠ 0)
    (h : INT_MIN ≤ x.val * s.val ∧ x.val * s.val ≤ INT_MAX) :
    Scalar.divides (Scalar.multiplies x s) s = x := by
  apply cint_eq_of_val
  show wrap32 (Int.tdiv (wrap32 (x.val * s.val)) s.val) = x.val
  rw [wrap32_of_range _ h, Int.mul_tdiv_cancel _ hs, wrap32_of_range _ x.range]

theorem map_divides_multiplies_cint (s : CInt) (hs : s.val ≠ 0) :
    ∀ xs : List CInt,
      (∀ x ∈ xs, INT_MIN ≤ x.val * s.val ∧ x.val * s.val ≤ INT_MAX) →
      (xs.map fun x => Scalar.multiplies x s).map (fun x => Scalar.divides x s) = xs
  | [], _ => rfl
  | x :: xs, h => by
      simp only [List.map_cons]
      rw [cint_divides_multiplies x s hs (h x (List.mem_cons_self x xs)),
        map_divides_multiplies_cint s hs xs
          (fun y hy => h y (List.mem_cons_of_mem x hy))]

end RoundTrip

/-- C9: for integer vectors `a` and `b` of the same size (exact integers),
`(a + b) - b == a` under the vector equality operator. -/
theorem plus_minus_cancel {N : Nat} (a b : Vector Int N) :
    ((a.operator_plus b).operator_minus b).operator_eq a = true := by
  have h : ((a.operator_plus b).operator_minus b).elems = a.elems := by
    simp only [Vector.operator_plus, Vector.operator_minus, Vector.arithmetic_operation]
    rw [transform_eq_zipWith _ a.elems b.elems _
        (by rw [a.size_eq, (Vector.default : Vector Int N).size_eq])
        (by rw [b.size_eq, (Vector.default : Vector Int N).size_eq]),
      transform_eq_zipWith _ _ b.elems _
        (by rw [List.length_zipWith, a.size_eq, b.size_eq,
          (Vector.default : Vector Int N).size_eq, Nat.min_self])
        (by rw [b.size_eq, (Vector.default : Vector Int N).size_eq])]
    exact zipWith_minus_plus a.elems b.elems (by rw [a.size_eq, b.size_eq])
  simp only [Vector.operator_eq, h, equal_self]

/-- C10 as stated fails at the fixed width of `int`: for a = (2^30, 1, 0) and
s = 4 the product 2^30 * 4 wraps around to 0, so a * s = (0, 4, 0),
(a * s) / s = (0, 1, 0), and `(a * s) / s == a` is false although s is not
zero. -/
theorem multiplies_divides_overflow :
    cint4.val ≠ 0 ∧
    (wide_vec.operator_multiplies_val cint4).elems.map CInt.val = [0, 4, 0] ∧
    ((wide_vec.operator_multiplies_val cint4).operator_divides_val cint4).elems.map CInt.val
      = [0, 1, 0] ∧
    ((wide_vec.operator_multiplies_val cint4).operator_divides_val cint4).operator_eq wide_vec
      = false := by
  decide

/-- C10, amended: for a vector `a` of 32-bit `int` elements (division truncating
toward zero) and a nonzero scalar `s` such that no product `a[i] * s` overflows
the range of `int`, `(a * s) / s == a` under the vector equality operator,
whatever the signs of the elements and of `s`. -/
theorem multiplies_divides_cancel_of_no_overflow {N : Nat} (a : Vector CInt N) (s : CInt)
    (hs : s.val ≠ 0)
    (hfit : ∀ x ∈ a.elems, INT_MIN ≤ x.val * s.val ∧ x.val * s.val ≤ INT_MAX) :
    ((a.operator_multiplies_val s).operator_divides_val s).operator_eq a = true := by
  have h : ((a.operator_multiplies_val s).operator_divides_val s).elems = a.elems := by
    simp only [Vector.operator_multiplies_val, Vector.operator_divides_val,
      Vector.arithmetic_operation_val]
    rw [transform_fill_eq_map _ s a.elems _
        (by rw [a.size_eq, (Vector.default : Vector CInt N).size_eq]),
      transform_fill_eq_map _ s _ _
        (by rw [List.length_map, a.size_eq, (Vector.default : Vector CInt N).size_eq])]
    exact map_divides_multiplies_cint s hs a.elems hfit
  simp only [Vector.operator_eq, h, equal_self]

/-- Witness for amended C10: the vector (-7, 3, 0) and the scalar -2, where
(-7, 3, 0) * -2 = (14, -6, 0), no product overflows, and
(14, -6, 0) / -2 = (-7, 3, 0). -/
theorem multiplies_divides_cancel_of_no_overflow_witness :
    cint_neg2.val ≠ 0 ∧
    (∀ x ∈ signed_vec.elems,
      INT_MIN ≤ x.val * cint_neg2.val ∧ x.val * cint_neg2.val ≤ INT_MAX) ∧
    (signed_vec.operator_multiplies_val cint_neg2).elems.map CInt.val = [14, -6, 0] ∧
    ((signed_vec.operator_multiplies_val cint_neg2).operator_divides_val
      cint_neg2).operator_eq signed_vec = true :=
  ⟨by decide, by decide, by decide,
    multiplies_divides_cancel_of_no_overflow signed_vec cint_neg2 (by decide) (by decide)⟩

/-! ## `length` and `normalised` -/

section Length

theorem toInt_intCast (n : Int) : Scalar.toInt (n : ℚ) = n := by
  simp [Scalar.toInt]

theorem toInt_eq_zero (q : ℚ) (h0 : 0 ≤ q) (h1 : q < 1) : Scalar.toInt q = 0 := by
  simp only [Scalar.toInt]
  exact Int.tdiv_eq_zero_of_lt (Rat.num_nonneg.mpr h0) (Rat.lt_one_iff_num_lt_denom.mp h1)

/-- The vector (3, 4) under any square-root function that is exact at 25 and at
0: its length is 5, its normalised form is (3/5, 4/5), and the length of the
normalised form is 0. -/
theorem normalised_length_vec34 (sqrt : ℚ → ℚ) (h25 : sqrt 25 = 5) (h0 : sqrt 0 = 0) :
    vec34.length sqrt = 5 ∧ vec34.normalised sqrt = ⟨[3 / 5, 4 / 5], rfl⟩ ∧
      (vec34.normalised sqrt).length sqrt = 0 := by
  have hlen : vec34.length sqrt = 5 := by
    have hd : vec34.dot vec34 = 25 := by
      simp only [Vector.dot, vec34, inner_product, Scalar.plus, Scalar.multiplies,
        Scalar.fromInt]
      have e1 : ((0 : Int) : ℚ) + 3 * 3 = ((9 : Int) : ℚ) := by norm_num
      rw [e1, toInt_intCast]
      have e2 : ((9 : Int) : ℚ) + 4 * 4 = ((25 : Int) : ℚ) := by norm_num
      rw [e2, toInt_intCast]
      norm_num
    rw [Vector.length, hd, h25]
  have hn : vec34.normalised sqrt = ⟨[3 / 5, 4 / 5], rfl⟩ := by
    rw [Vector.normalised, hlen]
    simp only [vec34, Vector.operator_divides_val, Vector.arithmetic_operation_val,
      Vector.default, List.replicate, fill, List.map, transform, Scalar.divides,
      Vector.mk.injEq]
  refine ⟨hlen, hn, ?_⟩
  rw [hn]
  have hd : Vector.dot (⟨[3 / 5, 4 / 5], rfl⟩ : Vector ℚ 2) ⟨[3 / 5, 4 / 5], rfl⟩ = 0 := by
    simp only [Vector.dot, inner_product, Scalar.plus, Scalar.multiplies, Scalar.fromInt]
    have a1 : Scalar.toInt (((0 : Int) : ℚ) + 3 / 5 * (3 / 5)) = 0 :=
      toInt_eq_zero _ (by norm_num) (by norm_num)
    have a2 : Scalar.toInt (((0 : Int) : ℚ) + 4 / 5 * (4 / 5)) = 0 :=
      toInt_eq_zero _ (by norm_num) (by norm_num)
    rw [a1, a2]
    norm_num
  rw [Vector.length, hd, h0]

end Length

/-- C11, at the failing input a = (3, 4) with a fractional element type and the
square root exact at 25 and 0 (here `Rat.sqrt`): `length()` is 5 and
`normalised()` is (0.6, 0.8) as the claim says, but `normalised().length()` is
0, not within 0.001 of 1, because `dot` truncates 0.36 and 0.64 to the `int`
0. -/
theorem normalised_length_truncated :
    vec34.length Rat.sqrt = 5 ∧ vec34.normalised Rat.sqrt = ⟨[3 / 5, 4 / 5], rfl⟩ ∧
      (vec34.normalised Rat.sqrt).length Rat.sqrt = 0 ∧
      ¬ |(vec34.normalised Rat.sqrt).length Rat.sqrt - 1| ≤ 1 / 1000 := by
  have h25 : Rat.sqrt 25 = 5 := by
    have h := Rat.sqrt_eq 5
    have e : (5 : ℚ) * 5 = 25 := by norm_num
    rw [abs_of_nonneg (by norm_num), e] at h
    exact h
  have h0 : Rat.sqrt 0 = 0 := by
    have h := Rat.sqrt_eq 0
    rw [abs_zero, mul_zero] at h
    exact h
  obtain ⟨h1, h2, h3⟩ := normalised_length_vec34 Rat.sqrt h25 h0
  refine ⟨h1, h2, h3, ?_⟩
  rw [h3]
  norm_num

/-! ## Equality operators -/

section Equality

variable {TYPE : Type}

theorem equal_iff_eq [DecidableEq TYPE] :
    ∀ xs ys : List TYPE, xs.length = ys.length → (equal xs ys = true ↔ xs = ys)
  | [], [], _ => by simp [equal]
  | [], _ :: _, h => by simp at h
  | _ :: _, [], h => by simp at h
  | x :: xs, y :: ys, h => by
      simp only [List.length_cons, Nat.add_right_cancel_iff] at h
      simp [equal, equal_iff_eq xs ys h]

theorem eq_iff_getElem? (n : Nat) (xs ys : List TYPE) (hx : xs.length = n)
    (hy : ys.length = n) : xs = ys ↔ ∀ i, i < n → xs[i]? = ys[i]? := by
  constructor
  · intro h i _
    rw [h]
  · intro h
    apply List.ext_getElem?
    intro i
    by_cases hi : i < n
    · exact h i hi
    · rw [List.getElem?_eq_none (by omega), List.getElem?_eq_none (by omega)]

theorem all_of_iff [DecidableEq TYPE] (s : TYPE) :
    ∀ xs : List TYPE, all_of (fun x => decide (x = s)) xs = true ↔
      ∀ i, i < xs.length → xs[i]? = some s
  | [] => by simp [all_of]
  | x :: xs => by
      simp only [all_of, Bool.and_eq_true, decide_eq_true_eq, all_of_iff s xs, List.length_cons]
      constructor
      · rintro ⟨hx, hxs⟩ i hi
        cases i with
        | zero => simp [hx]
        | succ i => simpa using hxs i (by omega)
      · intro h
        refine ⟨by simpa using h 0 (by omega), ?_⟩
        intro i hi
        simpa using h (i + 1) (by omega)

end Equality

/-- C12: `a == b` is true exactly when `a[i] = b[i]` for every `i < N`, and
`a != b` is its negation (true exactly when some position differs); `a == s` is
true exactly when every element of `a` is `s`, and `a != s` is its negation
(true exactly when some element differs from `s`). -/
theorem equality_operators {TYPE : Type} [DecidableEq TYPE] {N : Nat}
    (a b : Vector TYPE N) (s : TYPE) :
    (a.operator_eq b = true ↔ ∀ i, i < N → a.get? i = b.get? i) ∧
    (a.operator_ne b = !a.operator_eq b) ∧
    (a.operator_ne b = true ↔ ∃ i, i < N ∧ a.get? i ≠ b.get? i) ∧
    (a.operator_eq_val s = true ↔ ∀ i, i < N → a.get? i = some s) ∧
    (a.operator_ne_val s = !a.operator_eq_val s) ∧
    (a.operator_ne_val s = true ↔ ∃ i, i < N ∧ a.get? i ≠ some s) := by
  have h1 : a.operator_eq b = true ↔ ∀ i, i < N → a.get? i = b.get? i := by
    simp only [Vector.operator_eq, Vector.get?]
    rw [equal_iff_eq a.elems b.elems (by rw [a.size_eq, b.size_eq])]
    exact eq_iff_getElem? N a.elems b.elems a.size_eq b.size_eq
  have h2 : a.operator_eq_val s = true ↔ ∀ i, i < N → a.get? i = some s := by
    simp only [Vector.operator_eq_val, Vector.get?]
    rw [all_of_iff s a.elems, a.size_eq]
  refine ⟨h1, rfl, ?_, h2, rfl, ?_⟩
  · have h3 : a.operator_ne b = true ↔ ¬ (a.operator_eq b = true) := by
      simp [Vector.operator_ne]
    rw [h3, h1]
    push_neg
    rfl
  · have h3 : a.operator_ne_val s = true ↔ ¬ (a.operator_eq_val s = true) := by
      simp [Vector.operator_ne_val]
    rw [h3, h2]
    push_neg
    rfl

/-- Witness for C12: (1,2) != 1 is true, (1,1) != 1 is false, (1,2,3) == (1,2,3)
is true and (1,2,3) != (1,2,4) is true; and the theorem at (1,2,3), (2,2,2) and
the scalar 2. -/
theorem equality_operators_witness :
    (Vector.operator_ne_val (⟨[1, 2], rfl⟩ : Vector Int 2) 1 = true ∧
      Vector.operator_ne_val (⟨[1, 1], rfl⟩ : Vector Int 2) 1 = false ∧
      ivec123.operator_eq ivec123 = true ∧
      ivec123.operator_ne ⟨[1, 2, 4], rfl⟩ = true ∧
      ivec1.operator_eq_val 2 = true) ∧
    ((ivec123.operator_eq ivec1 = true ↔ ∀ i, i < 3 → ivec123.get? i = ivec1.get? i) ∧
      (ivec123.operator_ne ivec1 = !ivec123.operator_eq ivec1) ∧
      (ivec123.operator_ne ivec1 = true ↔ ∃ i, i < 3 ∧ ivec123.get? i ≠ ivec1.get? i) ∧
      (ivec123.operator_eq_val 2 = true ↔ ∀ i, i < 3 → ivec123.get? i = some 2) ∧
      (ivec123.operator_ne_val 2 = !ivec123.operator_eq_val 2) ∧
      (ivec123.operator_ne_val 2 = true ↔ ∃ i, i < 3 ∧ ivec123.get? i ≠ some 2)) :=
  ⟨by decide, equality_operators ivec123 ivec1 2⟩

/-! ## Compound assignment -/

section CompoundAssignment

variable {TYPE : Type}

theorem copy_eq_self : ∀ xs ds : List TYPE, xs.length = ds.length → copy xs ds = xs
  | [], [], _ => rfl
  | [], _ :: _, h => by simp at h
  | _ :: _, [], h => by simp at h
  | x :: xs, _ :: ds, h => by
      simp only [List.length_cons, Nat.add_right_cancel_iff] at h
      simp [copy, copy_eq_self xs ds h]

theorem vector_eq_of_elems {SIZE : Nat} (a b : Vector TYPE SIZE) (h : a.elems = b.elems) :
    a = b := by
  cases a
  cases b
  simp only [Vector.mk.injEq]
  exact h

theorem matrix_eq_of_elems {ROWS COLS : Nat} (a b : Matrix TYPE ROWS COLS)
    (h : a.elems = b.elems) : a = b := by
  cases a
  cases b
  simp only [Matrix.mk.injEq]
  exact h

/-- After `operator=` the vector holds the elements of the right-hand side. -/
theorem vector_operator_assign {SIZE : Nat} (self other : Vector TYPE SIZE) :
    self.operator_assign other = other := by
  have h : (self.operator_assign other).elems = other.elems :=
    copy_eq_self other.elems self.elems (by rw [other.size_eq, self.size_eq])
  exact vector_eq_of_elems _ _ h

/-- After `operator=` the matrix holds the elements of the right-hand side. -/
theorem matrix_operator_assign {ROWS COLS : Nat} (self other : Matrix TYPE ROWS COLS) :
    self.operator_assign other = other := by
  have h : (self.operator_assign other).elems = other.elems :=
    copy_eq_self other.elems self.elems (by rw [other.size_eq, self.size_eq])
  exact matrix_eq_of_elems _ _ h

end CompoundAssignment

/-- C13: for each operator among `+ - * /`, every container `a` (a vector or a
matrix) and every right operand (a same-shape container or a scalar), `a op= r`
leaves `a` equal to the value of `a op r` computed from the contents of `a`
before the call, and yields that updated `a`; the chained form `(a += b) += c`
leaves `a` equal to `(a + b) + c`. -/
theorem compound_assignment {TYPE : Type} [Scalar TYPE] {SIZE ROWS COLS : Nat}
    (a b c : Vector TYPE SIZE) (ma mb mc : Matrix TYPE ROWS COLS) (s : TYPE) :
    (a.operator_plus_assign b = a.operator_plus b ∧
      a.operator_minus_assign b = a.operator_minus b ∧
      a.operator_multiplies_assign b = a.operator_multiplies b ∧
      a.operator_divides_assign b = a.operator_divides b ∧
      a.operator_plus_assign_val s = a.operator_plus_val s ∧
      a.operator_minus_assign_val s = a.operator_minus_val s ∧
      a.operator_multiplies_assign_val s = a.operator_multiplies_val s ∧
      a.operator_divides_assign_val s = a.operator_divides_val s) ∧
    (ma.operator_plus_assign mb = ma.operator_plus mb ∧
      ma.operator_minus_assign mb = ma.operator_minus mb ∧
      ma.operator_multiplies_assign mb = ma.operator_multiplies mb ∧
      ma.operator_divides_assign mb = ma.operator_divides mb ∧
      ma.operator_plus_assign_val s = ma.operator_plus_val s ∧
      ma.operator_minus_assign_val s = ma.operator_minus_val s ∧
      ma.operator_multiplies_assign_val s = ma.operator_multiplies_val s ∧
      ma.operator_divides_assign_val s = ma.operator_divides_val s) ∧
    (a.operator_plus_assign b).operator_plus_assign c = (a.operator_plus b).operator_plus c ∧
    (ma.operator_plus_assign mb).operator_plus_assign mc
      = (ma.operator_plus mb).operator_plus mc := by
  refine ⟨⟨?_, ?_, ?_, ?_, ?_, ?_, ?_, ?_⟩, ⟨?_, ?_, ?_, ?_, ?_, ?_, ?_, ?_⟩, ?_, ?_⟩
  · exact vector_operator_assign _ _
  · exact vector_operator_assign _ _
  · exact vector_operator_assign _ _
  · exact vector_operator_assign _ _
  · exact vector_operator_assign _ _
  · exact vector_operator_assign _ _
  · exact vector_operator_assign _ _
  · exact vector_operator_assign _ _
  · exact matrix_operator_assign _ _
  · exact matrix_operator_assign _ _
  · exact matrix_operator_assign _ _
  · exact matrix_operator_assign _ _
  · exact matrix_operator_assign _ _
  · exact matrix_operator_assign _ _
  · exact matrix_operator_assign _ _
  · exact matrix_operator_assign _ _
  · simp only [Vector.operator_plus_assign, vector_operator_assign]
  · simp only [Matrix.operator_plus_assign, matrix_operator_assign]

/-- Samples for C13: (2,2,2) += (3,3,3) leaves (5,5,5), ((2,2,2) += (3,3,3)) +=
(1,2,3) leaves (6,7,8), (2,2,2) /= 2 leaves (1,1,1) and [[1,2],[3,4]] -=
[[5,6],[7,8]] leaves [[-4,-4],[-4,-4]]. -/
theorem compound_assignment_samples :
    ivec1.operator_plus_assign ivec2 = ⟨[5, 5, 5], rfl⟩ ∧
    (ivec1.operator_plus_assign ivec2).operator_plus_assign ivec123 = ⟨[6, 7, 8], rfl⟩ ∧
    ivec1.operator_divides_assign_val 2 = ⟨[1, 1, 1], rfl⟩ ∧
    mat22.operator_minus_assign mat22b = ⟨[-4, -4, -4, -4], rfl⟩ := by
  decide

/-! ## Unary negation -/

section Negation

/-- Unary negation multiplies every element by the converted `-1`: position `i`
of `-a` is `a[i] * (-1)`, and the storage of `-(-a)` is that of `a` when
multiplying twice by `-1` gives the element back. -/
theorem operator_neg_spec {TYPE : Type} [Scalar TYPE] {N : Nat} (a : Vector TYPE N) :
    (∀ i, i < N → ∃ x, a.get? i = some x ∧
      a.operator_neg.get? i = some (Scalar.multiplies x (Scalar.fromInt (-1)))) ∧
    ((∀ x : TYPE, Scalar.multiplies (Scalar.multiplies x (Scalar.fromInt (-1)))
        (Scalar.fromInt (-1)) = x) → a.operator_neg.operator_neg = a) := by
  constructor
  · intro i hi
    exact getElem?_transform_fill Scalar.multiplies a.elems _ (Scalar.fromInt (-1)) N i
      a.size_eq (Vector.default : Vector TYPE N).size_eq hi
  · intro hinv
    have h : a.operator_neg.operator_neg.elems = a.elems := by
      simp only [Vector.operator_neg, Vector.operator_multiplies_val,
        Vector.arithmetic_operation_val]
      rw [transform_fill_eq_map _ _ a.elems _
          (by rw [a.size_eq, (Vector.default : Vector TYPE N).size_eq]),
        transform_fill_eq_map _ _ _ _
          (by rw [List.length_map, a.size_eq, (Vector.default : Vector TYPE N).size_eq])]
      rw [List.map_map]
      have hid : ((fun x : TYPE => Scalar.multiplies x (Scalar.fromInt (-1))) ∘
          fun x : TYPE => Scalar.multiplies x (Scalar.fromInt (-1))) = id := by
        funext x
        exact hinv x
      rw [hid, List.map_id]
    exact vector_eq_of_elems _ _ h

theorem int_multiplies_neg_one (x : Int) :
    Scalar.multiplies x (Scalar.fromInt (-1) : Int) = -x := by
  show x * (-1) = -x
  omega

theorem rat_multiplies_neg_one (x : ℚ) :
    Scalar.multiplies x (Scalar.fromInt (-1) : ℚ) = -x := by
  show x * (((-1 : Int) : ℚ)) = -x
  norm_num

end Negation

/-- C14: for a vector `a` of a signed element type (exact integers, and exact
fractions), `-a` is `a` multiplied by the scalar -1, `(-a)[i] = -(a[i])` for
every `i < N`, and `-(-a) == a`.  (`operator-()` is a `const` member: it is a
function of `a` and `a` is not modified.) -/
theorem unary_negation {N : Nat} :
    (∀ a : Vector Int N,
      a.operator_neg = a.operator_multiplies_val (-1) ∧
      (∀ i, i < N → ∃ x, a.get? i = some x ∧ a.operator_neg.get? i = some (-x)) ∧
      a.operator_neg.operator_neg.operator_eq a = true) ∧
    (∀ a : Vector ℚ N,
      a.operator_neg = a.operator_multiplies_val (-1) ∧
      (∀ i, i < N → ∃ x, a.get? i = some x ∧ a.operator_neg.get? i = some (-x)) ∧
      a.operator_neg.operator_neg.operator_eq a = true) := by
  constructor
  · intro a
    obtain ⟨h1, h2⟩ := operator_neg_spec a
    refine ⟨rfl, ?_, ?_⟩
    · intro i hi
      obtain ⟨x, hx, hn⟩ := h1 i hi
      exact ⟨x, hx, by rw [hn, int_multiplies_neg_one]⟩
    · rw [h2 (fun x => by rw [int_multiplies_neg_one, int_multiplies_neg_one, neg_neg])]
      exact equal_self a.elems
  · intro a
    obtain ⟨h1, h2⟩ := operator_neg_spec a
    refine ⟨?_, ?_, ?_⟩
    · have e : (Scalar.fromInt (-1) : ℚ) = -1 := by
        show (((-1 : Int) : ℚ)) = -1
        norm_num
      rw [Vector.operator_neg, e]
    · intro i hi
      obtain ⟨x, hx, hn⟩ := h1 i hi
      exact ⟨x, hx, by rw [hn, rat_multiplies_neg_one]⟩
    · rw [h2 (fun x => by rw [rat_multiplies_neg_one, rat_multiplies_neg_one, neg_neg])]
      exact equal_self a.elems

/-- Witness for C14: -(1, -2, 3) = (-1, 2, -3) and -(-(1, -2, 3)) == (1, -2, 3),
and the theorem at size 3. -/
theorem unary_negation_witness :
    (Vector.operator_neg (⟨[1, -2, 3], rfl⟩ : Vector Int 3) = ⟨[-1, 2, -3], rfl⟩ ∧
      (Vector.operator_neg (Vector.operator_neg (⟨[1, -2, 3], rfl⟩ : Vector Int 3))).operator_eq
        ⟨[1, -2, 3], rfl⟩ = true) ∧
    ((∀ a : Vector Int 3,
        a.operator_neg = a.operator_multiplies_val (-1) ∧
        (∀ i, i < 3 → ∃ x, a.get? i = some x ∧ a.operator_neg.get? i = some (-x)) ∧
        a.operator_neg.operator_neg.operator_eq a = true) ∧
      (∀ a : Vector ℚ 3,
        a.operator_neg = a.operator_multiplies_val (-1) ∧
        (∀ i, i < 3 → ∃ x, a.get? i = some x ∧ a.operator_neg.get? i = some (-x)) ∧
        a.operator_neg.operator_neg.operator_eq a = true)) :=
  ⟨by decide, unary_negation⟩

/-! ## Storage layout and the `(row, col)` accessor -/

/-- C15: matrix storage is row-major.  A matrix built by the variadic
constructor from exactly `ROWS * COLS` arguments holds them in the order given
(whatever the storage held before), the accessor `m(i, j)` reads
`storage[i * COLS + j]`, so `m(i, j)` is argument number `i * COLS + j` for all
`i < ROWS`, `j < COLS`, and every element of row `i` precedes every element of
row `i + 1`. -/
theorem row_major_storage {TYPE : Type} {ROWS COLS : Nat} (uninit : Matrix TYPE ROWS COLS)
    (args : List TYPE) (hargs : args.length = ROWS * COLS) (i j : Nat)
    (hi : i < ROWS) (hj : j < COLS) :
    Matrix.construct uninit args hargs = ⟨args, hargs⟩ ∧
    (∃ v, args[i * COLS + j]? = some v ∧
      (Matrix.construct uninit args hargs).get? i j = some v) ∧
    (∀ m : Matrix TYPE ROWS COLS, m.get? i j = m.elems[i * COLS + j]?) ∧
    (∀ k, k < COLS → Matrix.index COLS i j < Matrix.index COLS (i + 1) k) := by
  have hc : Matrix.construct uninit args hargs = ⟨args, hargs⟩ :=
    matrix_eq_of_elems _ _ (copy_eq_self args uninit.elems (by rw [hargs, uninit.size_eq]))
  refine ⟨hc, ?_, fun m => rfl, ?_⟩
  · have hlt : i * COLS + j < args.length := by
      rw [hargs]; exact index_lt hi hj
    refine ⟨args[i * COLS + j], List.getElem?_eq_getElem hlt, ?_⟩
    rw [hc]
    exact List.getElem?_eq_getElem hlt
  · intro k _
    unfold Matrix.index
    have h : (i + 1) * COLS = i * COLS + COLS := by ring
    omega

/-- Witness for C15: `Matrix<int, 2, 2>(1, 2, 3, 4)` has `m(0, 1) = 2` and
`m(1, 0) = 3`, and the theorem at that matrix and the cell (1, 0). -/
theorem row_major_storage_witness :
    ((Matrix.construct (Matrix.default : Matrix Int 2 2) [1, 2, 3, 4] rfl).get? 0 1 = some 2 ∧
      (Matrix.construct (Matrix.default : Matrix Int 2 2) [1, 2, 3, 4] rfl).get? 1 0 = some 3) ∧
    (1 < 2 ∧ 0 < 2) ∧
    (Matrix.construct (Matrix.default : Matrix Int 2 2) [1, 2, 3, 4] rfl = ⟨[1, 2, 3, 4], rfl⟩ ∧
      (∃ v, ([1, 2, 3, 4] : List Int)[1 * 2 + 0]? = some v ∧
        (Matrix.construct (Matrix.default : Matrix Int 2 2) [1, 2, 3, 4] rfl).get? 1 0
          = some v) ∧
      (∀ m : Matrix Int 2 2, m.get? 1 0 = m.elems[1 * 2 + 0]?) ∧
      (∀ k, k < 2 → Matrix.index 2 1 0 < Matrix.index 2 (1 + 1) k)) :=
  ⟨by decide, by decide,
    row_major_storage (Matrix.default : Matrix Int 2 2) [1, 2, 3, 4] rfl 1 0
      (by decide) (by decide)⟩

/-- C16: for an in-range cell `(i, j)` of a matrix `m` and a value `x`, the
assignment `m(i, j) = x` succeeds; afterwards `m(i, j)` reads `x`, every other
in-range cell reads its previous value, and no other in-range cell shares the
storage slot of `(i, j)`. -/
theorem accessor_write_frame {TYPE : Type} {ROWS COLS : Nat} (m : Matrix TYPE ROWS COLS)
    (i j : Nat) (x : TYPE) (hi : i < ROWS) (hj : j < COLS) :
    ∃ r, m.set? i j x = some r ∧ r.get? i j = some x ∧
      ∀ k l, k < ROWS → l < COLS → (k, l) ≠ (i, j) →
        r.get? k l = m.get? k l ∧ Matrix.index COLS k l ≠ Matrix.index COLS i j := by
  obtain ⟨r, hr, hget⟩ := set?_spec m x hi hj
  refine ⟨r, hr, ?_, ?_⟩
  · rw [hget i j hj]
    simp
  · intro k l _ hl hne
    have hkl : ¬ (k = i ∧ l = j) := by
      rintro ⟨h1, h2⟩
      exact hne (by rw [h1, h2])
    constructor
    · rw [hget k l hl]
      simp [hkl]
    · intro heq
      obtain ⟨h1, h2⟩ := index_inj hl hj heq
      exact hkl ⟨h1, h2⟩

/-- Witness for C16: in [[1,2,3],[4,5,6]] the assignment `m(1, 0) = 9` gives
[[1,2,3],[9,5,6]], and the theorem at that matrix and cell. -/
theorem accessor_write_frame_witness :
    mat23.set? 1 0 9 = some ⟨[1, 2, 3, 9, 5, 6], rfl⟩ ∧
    (1 < 2 ∧ 0 < 3) ∧
    ∃ r, mat23.set? 1 0 9 = some r ∧ r.get? 1 0 = some 9 ∧
      ∀ k l, k < 2 → l < 3 → (k, l) ≠ (1, 0) →
        r.get? k l = mat23.get? k l ∧ Matrix.index 3 k l ≠ Matrix.index 3 1 0 :=
  ⟨by decide, by decide, accessor_write_frame mat23 1 0 9 (by decide) (by decide)⟩

/-! ## The call accessor of `Vector` -/

/-- The two ways to a position of a vector: `v(i)` reads element `i`, and its
non-`const` overload gives a temporary copy of it, so an assignment through
`v(i)` leaves the vector as it was; an assignment through `v[i]` writes the
storage, and `v(i)` then reads the assigned value. -/
theorem operator_call_spec {TYPE : Type} {SIZE : Nat} (v : Vector TYPE SIZE) (i : Nat)
    (x : TYPE) (hi : i < SIZE) :
    (∃ e, v.elems[i]? = some e ∧ v.operator_call i = some e ∧
      v.operator_call_mut i = some (Access.temporary e)) ∧
    (v.operator_call_mut i).map (fun target => v.assign_through target x) = some v ∧
    ((v.operator_index_mut i).map fun target => v.assign_through target x).bind
      (fun w => w.operator_call i) = some x := by
  have hlt : i < v.elems.length := by rw [v.size_eq]; exact hi
  have h : v.get? i = some v.elems[i] := List.getElem?_eq_getElem hlt
  refine ⟨⟨v.elems[i], List.getElem?_eq_getElem hlt, h, ?_⟩, ?_, ?_⟩
  · rw [Vector.operator_call_mut, h]
    rfl
  · rw [Vector.operator_call_mut, h]
    rfl
  · simp [Vector.operator_index_mut, Vector.assign_through, Vector.operator_call, Vector.get?,
      hlt]

/-- C17, at the failing input v = (Cell{1}, Cell{2}, Cell{3}), i = 1,
x = Cell{9}: `v(1)` reads Cell{2}; the non-`const` `v(1)` gives a temporary
copy, so after `v(1) = Cell{9}` the vector is still (Cell{1}, Cell{2}, Cell{3})
and `v(1)` still reads Cell{2}, not Cell{9}; after `v[1] = Cell{9}`, through the
reference returned by `operator[]`, `v(1)` reads Cell{9}. -/
theorem operator_call_write_lost :
    cells.operator_call 1 = some ⟨2⟩ ∧
    cells.operator_call_mut 1 = some (Access.temporary ⟨2⟩) ∧
    (cells.operator_call_mut 1).map (fun target => cells.assign_through target ⟨9⟩)
      = some cells ∧
    ((cells.operator_call_mut 1).map fun target => cells.assign_through target ⟨9⟩).bind
      (fun w => w.operator_call 1) = some ⟨2⟩ ∧
    ((cells.operator_call_mut 1).map fun target => cells.assign_through target ⟨9⟩).bind
      (fun w => w.operator_call 1) ≠ some ⟨9⟩ ∧
    ((cells.operator_index_mut 1).map fun target => cells.assign_through target ⟨9⟩).bind
      (fun w => w.operator_call 1) = some ⟨9⟩ := by
  decide

/-! ## Symmetry of the identity and in-place transposition -/

section Transpose

variable {TYPE : Type}

/-- Two matrices of the same shape that agree on every in-range cell are
equal. -/
theorem matrix_ext_get? {ROWS COLS : Nat} (a b : Matrix TYPE ROWS COLS)
    (h : ∀ i j, i < ROWS → j < COLS → a.get? i j = b.get? i j) : a = b := by
  apply matrix_eq_of_elems
  apply List.ext_getElem?
  intro p
  by_cases hp : p < ROWS * COLS
  · have hC : 0 < COLS := by
      rcases Nat.eq_zero_or_pos COLS with h0 | h0
      · rw [h0] at hp; simp at hp
      · exact h0
    have hi : p / COLS < ROWS := (Nat.div_lt_iff_lt_mul hC).mpr hp
    have hj : p % COLS < COLS := Nat.mod_lt _ hC
    have hidx : Matrix.index COLS (p / COLS) (p % COLS) = p := by
      unfold Matrix.index
      rw [Nat.mul_comm]
      exact Nat.div_add_mod p COLS
    have h1 := h (p / COLS) (p % COLS) hi hj
    simpa [Matrix.get?, hidx] using h1
  · rw [List.getElem?_eq_none (by rw [a.size_eq]; omega),
      List.getElem?_eq_none (by rw [b.size_eq]; omega)]

/-- Transposing the transposed matrix gives the matrix back. -/
theorem transposed_of_transposed [Scalar TYPE] {ROWS COLS : Nat} (m : Matrix TYPE ROWS COLS)
    (t : Matrix TYPE COLS ROWS) (ht : m.transposed = some t) : t.transposed = some m := by
  obtain ⟨t2, ht2, hget⟩ := transposed_get? m
  rw [ht] at ht2
  cases ht2
  obtain ⟨u, hu, hget2⟩ := transposed_get? t
  rw [hu]
  congr 1
  apply matrix_ext_get?
  intro i j hi hj
  rw [hget2 j i hj hi, hget i j hi hj]

end Transpose

/-- C18: the identity matrix is symmetric: `identity()` returns a matrix `I`, and
`I.transposed()` returns `I`, storage position by storage position. -/
theorem identity_transposed {TYPE : Type} [Scalar TYPE] {N : Nat} :
    ∃ I : Matrix TYPE N N, Matrix.identity = some I ∧ I.transposed = some I := by
  obtain ⟨I, hI, hget⟩ := identity_loop TYPE N N (le_refl N)
  obtain ⟨t, ht, hgett⟩ := transposed_get? I
  refine ⟨I, hI, ?_⟩
  rw [ht]
  congr 1
  apply matrix_ext_get?
  intro i j hi hj
  rw [hgett j i hj hi, hget j i hj hi, hget i j hi hj]
  by_cases hij : i = j
  · subst hij
    rfl
  · have hji : ¬ j = i := fun h => hij h.symm
    simp [hij, hji]

/-- Witness for C18: the 3×3 integer identity matrix transposed is itself, and
the theorem at `N = 3`. -/
theorem identity_transposed_witness :
    Matrix.transposed (⟨[1, 0, 0, 0, 1, 0, 0, 0, 1], rfl⟩ : Matrix Int 3 3)
      = some ⟨[1, 0, 0, 0, 1, 0, 0, 0, 1], rfl⟩ ∧
    ∃ I : Matrix Int 3 3, Matrix.identity = some I ∧ I.transposed = some I :=
  ⟨by decide, identity_transposed⟩

/-- C19: for a square matrix `m`, the in-place `m.transpose()` is computed and
leaves `m` equal to the value `t` of `m.transposed()` before the call, so that
afterwards `m(i, j)` is the old `m(j, i)` for all `i, j < N`; it yields that
updated `m`; and applying `transpose()` again restores the original `m`. -/
theorem transpose_in_place {TYPE : Type} [Scalar TYPE] {N : Nat} (m : Matrix TYPE N N) :
    ∃ t : Matrix TYPE N N, m.transposed = some t ∧ m.transpose = some t ∧
      (∀ i j, i < N → j < N → ∃ x, m.get? j i = some x ∧ t.get? i j = some x) ∧
      t.transpose = some m ∧ m.transpose.bind Matrix.transpose = some m := by
  obtain ⟨t, ht, hget⟩ := transposed_get? m
  have h1 : m.transpose = some t := by
    rw [Matrix.transpose, ht, Option.map_some', matrix_operator_assign]
  have h2 : t.transpose = some m := by
    rw [Matrix.transpose, transposed_of_transposed m t ht, Option.map_some',
      matrix_operator_assign]
  refine ⟨t, ht, h1, ?_, h2, ?_⟩
  · intro i j hi hj
    obtain ⟨x, hx⟩ := get?_eq_some m hj hi
    exact ⟨x, hx, by rw [hget j i hj hi, hx]⟩
  · rw [h1, Option.some_bind, h2]

/-- Witness for C19: [[1,2,3],[4,5,6],[7,8,9]] is transposed in place to
[[1,4,7],[2,5,8],[3,6,9]], and the theorem at that matrix. -/
theorem transpose_in_place_witness :
    mat33.transpose = some ⟨[1, 4, 7, 2, 5, 8, 3, 6, 9], rfl⟩ ∧
    ∃ t : Matrix Int 3 3, mat33.transposed = some t ∧ mat33.transpose = some t ∧
      (∀ i j, i < 3 → j < 3 → ∃ x, mat33.get? j i = some x ∧ t.get? i j = some x) ∧
      t.transpose = some mat33 ∧ mat33.transpose.bind Matrix.transpose = some mat33 :=
  ⟨by decide, transpose_in_place mat33⟩

/-! ## Bounds of the unchecked accesses -/

/-- C20: for `i < ROWS` and `j < COLS` the linear index `i * COLS + j` is below
`ROWS * COLS`, and so are the index `j * ROWS + i` written by `transposed()` in
the `COLS`×`ROWS` result and the diagonal index written by `identity()`; reads
and writes through the accessor at in-range cells never take the error branch,
and neither do `transposed()` and `identity()` as a whole. -/
theorem accessor_in_bounds {TYPE : Type} [Scalar TYPE] {ROWS COLS : Nat}
    (m : Matrix TYPE ROWS COLS) (i j : Nat) (hi : i < ROWS) (hj : j < COLS) :
    Matrix.index COLS i j < ROWS * COLS ∧
    Matrix.index ROWS j i < COLS * ROWS ∧
    Matrix.index ROWS i i < ROWS * ROWS ∧
    m.get? i j ≠ none ∧
    (∀ x, m.set? i j x ≠ none) ∧
    m.transposed ≠ none ∧
    (Matrix.identity : Option (Matrix TYPE ROWS ROWS)) ≠ none := by
  refine ⟨index_lt hi hj, index_lt hj hi, index_lt hi hi, ?_, ?_, ?_, ?_⟩
  · obtain ⟨x, hx⟩ := get?_eq_some m hi hj
    rw [hx]
    simp
  · intro x
    obtain ⟨r, hr, _⟩ := set?_spec m x hi hj
    rw [hr]
    simp
  · obtain ⟨t, ht, _⟩ := transposed_get? m
    rw [ht]
    simp
  · obtain ⟨r, hr, _⟩ := identity_loop TYPE ROWS ROWS (le_refl ROWS)
    have hid : (Matrix.identity : Option (Matrix TYPE ROWS ROWS)) = some r := hr
    rw [hid]
    simp

/-- Witness for C20: the theorem at the 2×3 matrix [[1,2,3],[4,5,6]] and its
last cell (1, 2), whose linear index is 5 < 6; the cell (0, 3), outside the
column range, is not covered and aliases cell (1, 0). -/
theorem accessor_in_bounds_witness :
    (1 < 2 ∧ 2 < 3) ∧
    (Matrix.index 3 1 2 = 5 ∧ Matrix.index 3 0 3 = Matrix.index 3 1 0 ∧
      mat23.get? 2 0 = none) ∧
    (Matrix.index 3 1 2 < 2 * 3 ∧
      Matrix.index 2 2 1 < 3 * 2 ∧
      Matrix.index 2 1 1 < 2 * 2 ∧
      mat23.get? 1 2 ≠ none ∧
      (∀ x, mat23.set? 1 2 x ≠ none) ∧
      mat23.transposed ≠ none ∧
      (Matrix.identity : Option (Matrix Int 2 2)) ≠ none) :=
  ⟨by decide, by decide, accessor_in_bounds mat23 1 2 (by decide) (by decide)⟩

end data
